import Mathlib

/-!
# games-with-go: level loading (23_tiles/game) and the 2D user interface (33_world/ui2d)

A shallow embedding of `loadLevelFromFile` (src/23_tiles/game/game.go) and of the
parts of `loadTextureIndex`, `Draw`, `keyDownOnce` and `Run`
(src/33_world/ui2d/ui2d.go) that the specification speaks about, with the
properties of the specification stated and proved over them.

Conventions.
* A Go `panic` (explicit, or a run-time index error) is an error value.
* Go `int` and `int64` are 64-bit, `int32` is 32-bit; arithmetic on them wraps
  (`wrap64`, `toInt32`).
* A Go string is given as a Lean `String` (valid UTF-8); `len` is its length in
  bytes and `range` yields the byte offset of every rune.
-/

namespace Game

/-! ## 23_tiles/game/game.go -/

/-- Tile of game.go: `type Tile rune`, a 32-bit integer. -/
abbrev Tile := Int

/-- StoneWall is the rune '#'. -/
def StoneWall : Tile := 35
/-- DirtFloor is the rune '.'. -/
def DirtFloor : Tile := 46
/-- Door is the rune '|'. -/
def Door : Tile := 124
/-- Blank is zero, the value `make([]Tile, n)` fills a row with. -/
def Blank : Tile := 0
/-- Pending is -1, the placeholder left where the player starts. -/
def Pending : Tile := -1

/-- The ways `loadLevelFromFile` panics once the file has been read. -/
inductive LoadPanic where
  | invalidCharacter   -- panic("Invalid character in map!")
  | searchTile         -- panic("Error in searchTile")
  | indexOutOfRange    -- run-time error: index out of range
  deriving DecidableEq, Repr

/-- Equality of results is decidable, so that results can be compared by evaluation. -/
instance instDecidableEqExcept {ε α : Type} [DecidableEq ε] [DecidableEq α] :
    DecidableEq (Except ε α)
  | .ok a, .ok b => if h : a = b then isTrue (by rw [h]) else isFalse (fun h1 => h (by cases h1; rfl))
  | .error a, .error b =>
    if h : a = b then isTrue (by rw [h]) else isFalse (fun h1 => h (by cases h1; rfl))
  | .ok _, .error _ => isFalse (fun h => by cases h)
  | .error _, .ok _ => isFalse (fun h => by cases h)

/-- Entity of game.go; the Player embeds it. -/
structure Entity where
  X : Int
  Y : Int
  deriving DecidableEq, Repr

/-- Level of game.go: the map and the player. -/
structure Level where
  Map : List (List Tile)
  Player : Entity
  deriving DecidableEq, Repr

/-- The value of `len(s)`: the number of bytes of the string. -/
def len (s : String) : Nat := s.utf8ByteSize

/-- The scanning loop of lines 65-75: the length of the longest line. -/
def longestRow : List String → Nat → Nat
  | [], longest => longest
  | l :: rest, longest => longestRow rest (if len l > longest then len l else longest)

/-- Lines 77-82: one row per line, each `make([]Tile, longestRow)`. -/
def makeMap (levelLines : List String) : List (List Tile) :=
  List.replicate levelLines.length (List.replicate (longestRow levelLines 0) Blank)

/-- The expression `m[y][x]` with integer indexes: none is the index panic. -/
def readCell (m : List (List Tile)) (y x : Int) : Option Tile :=
  if 0 ≤ y ∧ 0 ≤ x then
    match m[y.toNat]? with
    | none => none
    | some row => row[x.toNat]?
  else none

/-- The assignment `m[y][x] = t`: none is the index panic. -/
def writeCell (m : List (List Tile)) (y x : Nat) (t : Tile) : Option (List (List Tile)) :=
  match m[y]? with
  | none => none
  | some row => if x < row.length then some (m.set y (row.set x t)) else none

/-- The switch of lines 88-103 on one rune: the tile, and whether the rune is the
player start. -/
def tileOfRune (c : Char) : Except LoadPanic (Tile × Bool) :=
  if c = ' ' ∨ c = '\t' ∨ c = '\n' ∨ c = '\r' then .ok (Blank, false)
  else if c = '#' then .ok (StoneWall, false)
  else if c = '|' then .ok (Door, false)
  else if c = '.' then .ok (DirtFloor, false)
  else if c = 'P' then .ok (Pending, true)
  else .error .invalidCharacter

/-- The loop `for x, c := range line` of lines 86-105 on row `y`; `x` is the byte
offset of the rune `c`. -/
def parseLine (y : Nat) : List Char → Nat → Level → Except LoadPanic Level
  | [], _, level => .ok level
  | c :: rest, x, level =>
    match tileOfRune c with
    | .error e => .error e
    | .ok (t, isPlayer) =>
      let player : Entity := if isPlayer then ⟨(x : Int) * 32, (y : Int) * 32⟩ else level.Player
      match writeCell level.Map y x t with
      | none => .error .indexOutOfRange
      | some m => parseLine y rest (x + c.utf8Size) ⟨m, player⟩

/-- The loop `for y := 0; y < len(level.Map); y++` of lines 84-106. -/
def parseLines : List String → Nat → Level → Except LoadPanic Level
  | [], _, level => .ok level
  | line :: rest, y, level =>
    match parseLine y line.data 0 level with
    | .error e => .error e
    | .ok level1 => parseLines rest (y + 1) level1

/-- Lines 64-106: the map is allocated and filled from the lines. -/
def firstPass (levelLines : List String) : Except LoadPanic Level :=
  parseLines levelLines 0 ⟨makeMap levelLines, ⟨0, 0⟩⟩

/-- What the search of one Pending cell leaves: the index pairs (searchY, searchX)
it used on `level.Map`, in order, and the map or the panic. -/
structure Search where
  reads : List (Int × Int)
  result : Except LoadPanic (List (List Tile))
  deriving DecidableEq, Repr

/-- The body of the inner loop, lines 116-123. Neither arm of the switch reaches
the next iteration: DirtFloor leaves both loops (`break SearchLoop`), every other
tile panics. -/
def searchBody (m : List (List Tile)) (x y : Nat) (searchX searchY : Int) : Search :=
  match readCell m searchY searchX with
  | none => ⟨[(searchY, searchX)], .error .indexOutOfRange⟩
  | some searchTile =>
    if searchTile = DirtFloor then
      match writeCell m y x DirtFloor with
      | none => ⟨[(searchY, searchX)], .error .indexOutOfRange⟩
      | some m1 => ⟨[(searchY, searchX)], .ok m1⟩
    else ⟨[(searchY, searchX)], .error .searchTile⟩

/-- The inner loop `for searchY := y - 1; searchY <= y+1; searchY++` over the
values still to visit; none when the loop ends without leaving the search. -/
def searchColumn (m : List (List Tile)) (x y : Nat) (searchX : Int) : List Int → Option Search
  | [] => none
  | searchY :: _ => some (searchBody m x y searchX searchY)

/-- The outer loop `for searchX := x - 1; searchX <= x+1; searchX++` over the
values still to visit. An exhausted search leaves the map as it is. -/
def searchLoop (m : List (List Tile)) (x y : Nat) : List Int → Search
  | [] => ⟨[], .ok m⟩
  | searchX :: rest =>
    match searchColumn m x y searchX [(y : Int) - 1, (y : Int), (y : Int) + 1] with
    | some s => s
    | none => searchLoop m x y rest

/-- The search of lines 112-125 for the Pending cell at column `x` of row `y`. -/
def searchPending (m : List (List Tile)) (x y : Nat) : Search :=
  searchLoop m x y [(x : Int) - 1, (x : Int), (x : Int) + 1]

/-- The loop `for x, tile := range row` of lines 110-127 from column `x` on, with
`n` columns left; the reads of the searches are collected. -/
def resolveRow (y : Nat) : Nat → Nat → List (List Tile) → Search
  | 0, _, m => ⟨[], .ok m⟩
  | n + 1, x, m =>
    match readCell m y x with
    | none => ⟨[], .error .indexOutOfRange⟩
    | some tile =>
      if tile = Pending then
        let s := searchPending m x y
        match s.result with
        | .error e => ⟨s.reads, .error e⟩
        | .ok m1 =>
          let r := resolveRow y n (x + 1) m1
          ⟨s.reads ++ r.reads, r.result⟩
      else resolveRow y n (x + 1) m

/-- The loop `for y, row := range level.Map` of lines 109-128 from row `y` on,
with `n` rows left. -/
def resolveRows : Nat → Nat → List (List Tile) → Search
  | 0, _, m => ⟨[], .ok m⟩
  | n + 1, y, m =>
    let r := resolveRow y ((m[y]?.getD []).length) 0 m
    match r.result with
    | .error e => ⟨r.reads, .error e⟩
    | .ok m1 =>
      let r2 := resolveRows n (y + 1) m1
      ⟨r.reads ++ r2.reads, r2.result⟩

/-- The second pass, lines 108-128. -/
def secondPass (m : List (List Tile)) : Search :=
  resolveRows m.length 0 m

/-- The function loadLevelFromFile on the lines the scanner read from the file. -/
def loadLevelFromFile (levelLines : List String) : Except LoadPanic Level :=
  match firstPass levelLines with
  | .error e => .error e
  | .ok level =>
    match (secondPass level.Map).result with
    | .error e => .error e
    | .ok m => .ok ⟨m, level.Player⟩


/-- The cell at natural-number indexes, none outside the map. -/
def cellAt (m : List (List Tile)) (i j : Nat) : Option Tile :=
  match m[i]? with
  | none => none
  | some row => row[j]?

/-- The number of bytes of a list of runes, as `len` counts them. -/
def byteLen (cs : List Char) : Nat := String.utf8ByteSize.go cs

end Game

namespace World

/-! ## 33_world/ui2d/ui2d.go -/

/-- The value a Go `int` or `int64` holds after an operation whose exact result is `z`:
two's complement in 64 bits. -/
def wrap64 (z : Int) : Int :=
  (z + 9223372036854775808) % 18446744073709551616 - 9223372036854775808

/-- The conversion `int32(z)`, also the result of `int32` arithmetic: two's complement
in 32 bits. -/
def toInt32 (z : Int) : Int := (z + 2147483648) % 4294967296 - 2147483648

/-- The rectangle sdl.Rect: four `int32` fields. -/
structure Rect where
  X : Int
  Y : Int
  W : Int
  H : Int
  deriving DecidableEq, Repr

/-- The loop of lines 196-204 with `k` iterations left: one rectangle is appended,
`x` advances and wraps to the next row after column 62. -/
def variationLoop : Nat → Int → Int → List Rect → List Rect
  | 0, _, _, rects => rects
  | k + 1, x, y, rects =>
    let rects1 := rects ++ [⟨toInt32 (wrap64 (x * 32)), toInt32 (wrap64 (y * 32)), 32, 32⟩]
    let x1 := wrap64 (x + 1)
    if x1 > 62 then variationLoop k 0 (wrap64 (y + 1)) rects1
    else variationLoop k x1 y rects1

/-- Lines 195-205 of loadTextureIndex for one record: the list stored for the glyph,
from the parsed `x`, `y` and `variationCount` (all `int64`). The counter `i` runs
from 0 while `i < variationCount`. -/
def recordRects (x y variationCount : Int) : List Rect :=
  variationLoop variationCount.toNat x y []

/-- Modelled from the spec: the constant `game.Blank` of 33_world/game, which is not
under src/; zero as in 23_tiles, the value a Tile's runes have when unset. -/
def Blank : Int := 0

/-- Modelled from the spec: the type `game.Tile` of 33_world/game, which is not under
src/, with the fields ui2d.go reads. -/
structure Tile where
  Rune : Int
  OverlayRune : Int
  Visible : Bool
  Seen : Bool
  deriving DecidableEq, Repr

/-- Modelled from the spec: the type `game.Pos` of 33_world/game, which is not under
src/. -/
structure Pos where
  X : Int
  Y : Int
  deriving DecidableEq, Repr

/-- Modelled from the spec: the type `game.Level` of 33_world/game, which is not under
src/, with the fields the modelled parts of Draw read: the map, the player's
position, the debug map (a missing key reads false), the event buffer and its
cursor. -/
structure Level where
  Map : List (List Tile)
  Player : Pos
  Debug : Pos → Bool
  Events : List String
  EventPos : Int

/-- The generator `*rand.Rand` of the library math/rand, taken as a parameter.
`Seed k` is the state `r.Seed(k)` leaves (the library initialises the generator to a
state that the seed alone determines); `Intn s n` is the value of `r.Intn(n)` in
state `s` and the state after it, for `n > 0`, where the library returns a number
in `[0, n)`. -/
structure RandSource where
  State : Type
  Seed : Int → State
  Intn : State → Nat → Nat × State
  Intn_lt : ∀ (s : State) (n : Nat), 0 < n → (Intn s n).1 < n

/-- The fields of the struct `ui` that the modelled parts of Draw use. -/
structure UI (R : RandSource) where
  winWidth : Int
  winHeight : Int
  textureIndex : Int → List Rect
  centerX : Int
  centerY : Int
  r : R.State

/-- The ways the tile loop of Draw panics. -/
inductive DrawPanic where
  | intnArgument      -- rand.Intn called with 0
  | indexOutOfRange   -- run-time error: index out of range
  deriving DecidableEq, Repr

/-- The calls the tile loop makes on the renderer and the texture atlas. -/
inductive RenderCall where
  | setColorMod (r g b : Nat)
  | copy (src dst : Rect)
  deriving DecidableEq, Repr

/-- The variant chosen for one cell: the cell and the index `ui.r.Intn` returned. -/
structure Pick where
  x : Nat
  y : Nat
  index : Nat
  deriving DecidableEq, Repr

/-- What the body of the tile loop does for one cell: the generator afterwards, the
variant picked, the calls made, and the panic that ended it, if any. -/
structure CellDraw (R : RandSource) where
  r : R.State
  pick : Option Nat
  calls : List RenderCall
  panic : Option DrawPanic

/-- The colour modulation of lines 311-317, chosen by priority. -/
def colorMod (debug : Bool) (tile : Tile) : RenderCall :=
  if debug then .setColorMod 128 0 0
  else if tile.Seen && !tile.Visible then .setColorMod 128 128 128
  else .setColorMod 255 255 255

/-- The destination rectangle of line 307 for the cell at column `x` of row `y`. -/
def dstRectAt (offsetX offsetY : Int) (x y : Nat) : Rect :=
  ⟨toInt32 (toInt32 (wrap64 ((x : Int) * 32)) + offsetX),
   toInt32 (toInt32 (wrap64 ((y : Int) * 32)) + offsetY), 32, 32⟩

/-- The body of the tile loop, lines 303-327, for the cell at column `x` of row `y`. -/
def drawCell (R : RandSource) (textureIndex : Int → List Rect) (debug : Pos → Bool)
    (offsetX offsetY : Int) (x y : Nat) (tile : Tile) (r : R.State) : CellDraw R :=
  if tile.Rune ≠ Blank then
    let srcRects := textureIndex tile.Rune
    if srcRects.length = 0 then ⟨r, none, [], some .intnArgument⟩
    else
      let k := (R.Intn r srcRects.length).1
      let r1 := (R.Intn r srcRects.length).2
      match srcRects[k]? with
      | none => ⟨r1, some k, [], some .indexOutOfRange⟩
      | some srcRect =>
        if tile.Visible || tile.Seen then
          let dstRect : Rect := dstRectAt offsetX offsetY x y
          let calls := [colorMod (debug ⟨x, y⟩) tile, .copy srcRect dstRect]
          if tile.OverlayRune ≠ Blank then
            match (textureIndex tile.OverlayRune)[0]? with
            | none => ⟨r1, some k, calls, some .indexOutOfRange⟩
            | some overlayRect => ⟨r1, some k, calls ++ [.copy overlayRect dstRect], none⟩
          else ⟨r1, some k, calls, none⟩
        else ⟨r1, some k, [], none⟩
  else ⟨r, none, [], none⟩

/-- What the tile loop leaves: the generator, the calls made and the variants picked,
in order, and the panic that ended it, if any. -/
structure TileLoop (R : RandSource) where
  r : R.State
  calls : List RenderCall
  picks : List Pick
  panic : Option DrawPanic

/-- The record of the variant picked for the cell at column `x` of row `y`, if one was
picked. -/
def pickedAt (x y : Nat) : Option Nat → List Pick
  | none => []
  | some k => [⟨x, y, k⟩]

/-- The loop `for x, tile := range row` of lines 302-328, from column `x` on. -/
def drawRow (R : RandSource) (textureIndex : Int → List Rect) (debug : Pos → Bool)
    (offsetX offsetY : Int) (y : Nat) : List Tile → Nat → R.State → TileLoop R
  | [], _, r => ⟨r, [], [], none⟩
  | tile :: rest, x, r =>
    let c := drawCell R textureIndex debug offsetX offsetY x y tile r
    match c.panic with
    | some p => ⟨c.r, c.calls, pickedAt x y c.pick, some p⟩
    | none =>
      let t := drawRow R textureIndex debug offsetX offsetY y rest (x + 1) c.r
      ⟨t.r, c.calls ++ t.calls, pickedAt x y c.pick ++ t.picks, t.panic⟩

/-- The loop `for y, row := range level.Map` of lines 301-329, from row `y` on. -/
def drawRows (R : RandSource) (textureIndex : Int → List Rect) (debug : Pos → Bool)
    (offsetX offsetY : Int) : List (List Tile) → Nat → R.State → TileLoop R
  | [], _, r => ⟨r, [], [], none⟩
  | row :: rest, y, r =>
    let t := drawRow R textureIndex debug offsetX offsetY y row 0 r
    match t.panic with
    | some p => ⟨t.r, t.calls, t.picks, some p⟩
    | none =>
      let t2 := drawRows R textureIndex debug offsetX offsetY rest (y + 1) t.r
      ⟨t2.r, t.calls ++ t2.calls, t.picks ++ t2.picks, t2.panic⟩

/-- The camera update of lines 276-289: the new centre from the old one and the
player's position. -/
def updateCamera (centerX centerY playerX playerY : Int) : Int × Int :=
  let c : Int × Int :=
    if centerX = -1 ∧ centerY = -1 then (playerX, playerY) else (centerX, centerY)
  let limit : Int := 5
  if playerX > wrap64 (c.1 + limit) then (wrap64 (c.1 + 1), c.2)
  else if playerX < wrap64 (c.1 - limit) then (wrap64 (c.1 - 1), c.2)
  else if playerY > wrap64 (c.2 + limit) then (c.1, wrap64 (c.2 + 1))
  else if playerY < wrap64 (c.2 - limit) then (c.1, wrap64 (c.2 - 1))
  else c

/-- The centre after `n` successive calls of Draw with the player at the same
position. -/
def cameraAfter (playerX playerY : Int) : Nat → Int × Int → Int × Int
  | 0, c => c
  | n + 1, c => cameraAfter playerX playerY n (updateCamera c.1 c.2 playerX playerY)

/-- What lines 275-329 of Draw leave: the ui with its new centre and generator, and
the tile loop's record. -/
structure MapDraw (R : RandSource) where
  ui : UI R
  tiles : TileLoop R

/-- Lines 275-329 of Draw: the camera update, the offsets, the reseeding
`ui.r.Seed(1)` and the tile loop. -/
def drawMap (R : RandSource) (ui : UI R) (level : Level) : MapDraw R :=
  let c := updateCamera ui.centerX ui.centerY level.Player.X level.Player.Y
  let offsetX := toInt32 (wrap64 (Int.tdiv ui.winWidth 2 - wrap64 (c.1 * 32)))
  let offsetY := toInt32 (wrap64 (Int.tdiv ui.winHeight 2 - wrap64 (c.2 * 32)))
  let t := drawRows R ui.textureIndex level.Debug offsetX offsetY level.Map 0 (R.Seed 1)
  ⟨⟨ui.winWidth, ui.winHeight, ui.textureIndex, c.1, c.2, t.r⟩, t⟩

/-- The variant index a tile loop picked for the cell at column `x` of row `y`, if it
picked one. -/
def variantAt (picks : List Pick) (x y : Nat) : Option Nat :=
  match picks.find? (fun p => p.x = x ∧ p.y = y) with
  | none => none
  | some p => some p.index

/-- The grid of glyphs of a map: the Rune of every cell. -/
def glyphs (m : List (List Tile)) : List (List Int) :=
  m.map (fun row => row.map (fun t => t.Rune))

/-- How the event walk of lines 350-367 ends. -/
inductive WalkEnd where
  | finished      -- the walk came back to EventPos
  | panicked      -- run-time error: index out of range
  | outOfFuel     -- the iterations allowed to the model are used up
  deriving DecidableEq, Repr

/-- The record of the event walk: the slots read, the strings drawn with the line
number `count` each was drawn at, the number of iterations, and how it ended. -/
structure EventWalk where
  reads : List Int
  drawn : List (String × Nat)
  count : Nat
  ending : WalkEnd
  deriving DecidableEq, Repr

/-- The loop of lines 354-367 from slot `i`, at most `fuel` iterations. The sum
`i + 1` is at most `len(level.Events)` and does not overflow. -/
def eventLoop (events : List String) (eventPos : Int) : Nat → Int → EventWalk → EventWalk
  | 0, _, w => { w with ending := .outOfFuel }
  | fuel + 1, i, w =>
    if 0 ≤ i then
      match events[i.toNat]? with
      | none => { w with reads := w.reads ++ [i], ending := .panicked }
      | some event =>
        let drawn := if event ≠ "" then w.drawn ++ [(event, w.count)] else w.drawn
        let i1 := Int.tmod (i + 1) (events.length : Int)
        let w1 : EventWalk := ⟨w.reads ++ [i], drawn, w.count + 1, w.ending⟩
        if i1 = eventPos then { w1 with ending := .finished }
        else eventLoop events eventPos fuel i1 w1
    else { w with reads := w.reads ++ [i], ending := .panicked }

/-- Lines 350-367 of Draw: the walk starts at `level.EventPos` with `count` 0. -/
def drawEvents (fuel : Nat) (events : List String) (eventPos : Int) : EventWalk :=
  eventLoop events eventPos fuel eventPos ⟨[], [], 0, .outOfFuel⟩

/-- Modelled from the spec: the type `game.InputType` of 33_world/game, which is not
under src/. `None` is its zero value, the value `var input game.Input` starts
with. -/
inductive InputType where
  | None
  | Up
  | Down
  | Left
  | Right
  | QuitGame
  | CloseWindow
  deriving DecidableEq, Repr

/-- Modelled from the spec: the type `game.Input` of 33_world/game, which is not under
src/; the channel a CloseWindow input carries is left out. -/
structure Input where
  Typ : InputType
  deriving DecidableEq, Repr

/-- The keyboard state vector of SDL, indexed by scancode; SDL's vector has an entry
for every scancode. -/
abbrev KeyboardState := Nat → Nat

/-- The scancode sdl.SCANCODE_RIGHT. -/
def SCANCODE_RIGHT : Nat := 79
/-- The scancode sdl.SCANCODE_LEFT. -/
def SCANCODE_LEFT : Nat := 80
/-- The scancode sdl.SCANCODE_DOWN. -/
def SCANCODE_DOWN : Nat := 81
/-- The scancode sdl.SCANCODE_UP. -/
def SCANCODE_UP : Nat := 82

/-- The method keyDownOnce, lines 372-374. -/
def keyDownOnce (keyboardState prevKeyboardState : KeyboardState) (key : Nat) : Bool :=
  keyboardState key == 1 && prevKeyboardState key == 0

/-- What the keyboard block of one iteration of Run leaves: the previous keyboard
state and the inputs sent on the input channel, in order. -/
structure KeyBlock where
  prevKeyboardState : KeyboardState
  sent : List Input

/-- Lines 426-451 of Run: `focused` says whether the window holds the keyboard and
mouse focus. -/
def handleKeys (focused : Bool) (keyboardState prevKeyboardState : KeyboardState) : KeyBlock :=
  if focused then
    let input0 : Input := ⟨.None⟩
    let input1 : Input :=
      if keyDownOnce keyboardState prevKeyboardState SCANCODE_UP then ⟨.Up⟩ else input0
    let input2 : Input :=
      if keyDownOnce keyboardState prevKeyboardState SCANCODE_DOWN then ⟨.Down⟩ else input1
    let input3 : Input :=
      if keyDownOnce keyboardState prevKeyboardState SCANCODE_LEFT then ⟨.Left⟩ else input2
    let input4 : Input :=
      if keyDownOnce keyboardState prevKeyboardState SCANCODE_RIGHT then ⟨.Right⟩ else input3
    if input4.Typ ≠ .None then ⟨keyboardState, [input4]⟩ else ⟨keyboardState, []⟩
  else ⟨prevKeyboardState, []⟩

/-- A sample generator for evaluating Draw: a counter into a fixed stream of five
numbers, repeated; `Intn n` is the current number modulo `n`. The five numbers are
the first values of `Int31` that math/rand yields after `Seed(1)`. -/
def sampleSource : RandSource where
  State := Nat
  Seed := fun _ => 0
  Intn := fun s n =>
    ([1298498081, 2019727887, 1427131847, 939984059, 911902081].getD (s % 5) 0 % n, s + 1)
  Intn_lt := fun _ _ h => Nat.mod_lt _ h

end World

namespace World

/-! ## Reference functions for the statements about the tile loop -/

/-- What the glyph of a cell alone settles of the tile loop's body: the variant
picked (none for Blank and for a glyph without variants), the generator afterwards,
and whether `Intn` panics on an empty variant list. -/
def pickCell (R : RandSource) (textureIndex : Int → List Rect) (rune : Int) (r : R.State) :
    Option Nat × R.State × Bool :=
  if rune ≠ Blank then
    if (textureIndex rune).length = 0 then (none, r, true)
    else
      (some (R.Intn r (textureIndex rune).length).1, (R.Intn r (textureIndex rune).length).2,
        false)
  else (none, r, false)

/-- The picks along one row of glyphs from column `x` on, up to the first glyph without
variants: the picks, the generator afterwards, and whether such a glyph was met. -/
def pickRow (R : RandSource) (textureIndex : Int → List Rect) (y : Nat) :
    List Int → Nat → R.State → List Pick × R.State × Bool
  | [], _, r => ([], r, false)
  | rune :: rest, x, r =>
    let c := pickCell R textureIndex rune r
    if c.2.2 then (pickedAt x y c.1, c.2.1, true)
    else
      let t := pickRow R textureIndex y rest (x + 1) c.2.1
      (pickedAt x y c.1 ++ t.1, t.2.1, t.2.2)

/-- The picks over a grid of glyphs from row `y` on, in row-major order, up to the
first glyph without variants. -/
def pickRows (R : RandSource) (textureIndex : Int → List Rect) :
    List (List Int) → Nat → R.State → List Pick × R.State × Bool
  | [], _, r => ([], r, false)
  | row :: rest, y, r =>
    let t := pickRow R textureIndex y row 0 r
    if t.2.2 then (t.1, t.2.1, true)
    else
      let t2 := pickRows R textureIndex rest (y + 1) t.2.1
      (t.1 ++ t2.1, t2.2.1, t2.2.2)

/-- The glyph at column `x` of row `y` of a grid of glyphs, none outside the grid. -/
def glyphAt (g : List (List Int)) (y x : Nat) : Option Int :=
  match g[y]? with
  | none => none
  | some row => row[x]?

/-- The cells of one row from column `x` on, each with its column and row. -/
def rowCells (y : Nat) : List Tile → Nat → List (Nat × Nat × Tile)
  | [], _ => []
  | tile :: rest, x => (x, y, tile) :: rowCells y rest (x + 1)

/-- The cells of a map from row `y` on, in row-major order, each with its column and
row. -/
def mapCells : List (List Tile) → Nat → List (Nat × Nat × Tile)
  | [], _ => []
  | row :: rest, y => rowCells y row 0 ++ mapCells rest (y + 1)

/-- Whether a call is a colour modulation. -/
def isColorMod : RenderCall → Bool
  | .setColorMod _ _ _ => true
  | .copy _ _ => false

end World

namespace World

/-- The calls expected of the tile loop for one cell (column, row, tile), given the
variants the loop picked: none for a Blank cell and for a cell neither Visible nor
Seen; otherwise the colour modulation chosen by priority, the copy of the picked
variant of the cell's glyph to the cell's destination rectangle, and the copy of
the first variant of the overlay, if the cell has one. -/
def cellCalls (textureIndex : Int → List Rect) (debug : Pos → Bool) (offsetX offsetY : Int)
    (picks : List Pick) (c : Nat × Nat × Tile) : List RenderCall :=
  if c.2.2.Rune ≠ Blank ∧ (c.2.2.Visible = true ∨ c.2.2.Seen = true) then
    match variantAt picks c.1 c.2.1 with
    | none => []
    | some k =>
      match (textureIndex c.2.2.Rune)[k]? with
      | none => []
      | some srcRect =>
        [if debug ⟨c.1, c.2.1⟩ = true then RenderCall.setColorMod 128 0 0
          else if c.2.2.Seen = true ∧ c.2.2.Visible = false then
            RenderCall.setColorMod 128 128 128
          else RenderCall.setColorMod 255 255 255,
          RenderCall.copy srcRect (dstRectAt offsetX offsetY c.1 c.2.1)] ++
        (if c.2.2.OverlayRune ≠ Blank then
          match (textureIndex c.2.2.OverlayRune)[0]? with
          | none => []
          | some overlayRect =>
            [RenderCall.copy overlayRect (dstRectAt offsetX offsetY c.1 c.2.1)]
        else [])
  else []

/-! ## Reference functions for the event walk -/

/-- The slot the walk reads at its `k`-th iteration. -/
def slotAt (events : List String) (eventPos : Int) (k : Nat) : Int :=
  (eventPos + (k : Int)) % (events.length : Int)

/-- What the `k`-th iteration draws: the string of its slot with the line number `k`,
nothing for an empty slot. -/
def drawnAt (events : List String) (eventPos : Int) (k : Nat) : Option (String × Nat) :=
  match events[(slotAt events eventPos k).toNat]? with
  | none => none
  | some event => if event ≠ "" then some (event, k) else none

/-! ## Sample data for evaluating Draw -/

/-- A texture index with three variants for the glyph '.' (46) and one for the door
overlay '|' (124); no other glyph has a variant. -/
def sampleIndex : Int → List Rect := fun rune =>
  if rune = 46 then [⟨0, 0, 32, 32⟩, ⟨32, 0, 32, 32⟩, ⟨64, 0, 32, 32⟩]
  else if rune = 124 then [⟨96, 0, 32, 32⟩]
  else []

/-- A level with the given map, the player at (0, 0), an empty debug map and an empty
event buffer of capacity 1. -/
def sampleLevel (m : List (List Tile)) : Level :=
  ⟨m, ⟨0, 0⟩, fun _ => false, [""], 0⟩

/-- A fresh ui over the sample generator and the sample index: the window of NewUI and
the centre unset. -/
def sampleUI : UI sampleSource := ⟨1280, 720, sampleIndex, -1, -1, (0 : Nat)⟩

end World

namespace Game

/-! ### Facts about the map accessors -/

theorem readCell_natCast (m : List (List Tile)) (i j : Nat) :
    readCell m (i : Int) (j : Int) = cellAt m i j := by
  simp [readCell, cellAt]

theorem writeCell_lengths {m m1 : List (List Tile)} {y x : Nat} {t : Tile}
    (h : writeCell m y x t = some m1) : m1.map List.length = m.map List.length := by
  unfold writeCell at h
  split at h
  · simp at h
  · rename_i row hrow
    split at h
    · simp only [Option.some.injEq] at h
      subst h
      apply List.ext_getElem?
      intro n
      simp only [List.getElem?_map, List.getElem?_set]
      by_cases hn : y = n
      · subst hn
        have hy : y < m.length := by
          rcases List.getElem?_eq_some.mp hrow with ⟨hlt, _⟩
          exact hlt
        simp [hy, hrow]
      · simp [hn]
    · simp at h

theorem writeCell_cellAt {m m1 : List (List Tile)} {y x : Nat} {t : Tile}
    (h : writeCell m y x t = some m1) (i j : Nat) (hij : i ≠ y ∨ j ≠ x) :
    cellAt m1 i j = cellAt m i j := by
  unfold writeCell at h
  split at h
  · simp at h
  · rename_i row hrow
    split at h
    · simp only [Option.some.injEq] at h
      subst h
      unfold cellAt
      by_cases hi : y = i
      · subst hi
        have hy : y < m.length := by
          rcases List.getElem?_eq_some.mp hrow with ⟨hlt, _⟩
          exact hlt
        have hj : x ≠ j := by
          rcases hij with h1 | h1
          · exact absurd rfl h1
          · exact fun h2 => h1 h2.symm
        simp [List.getElem?_set, hy, hrow, hj]
      · simp [List.getElem?_set, hi]
    · simp at h

theorem byteLen_cons (c : Char) (cs : List Char) :
    byteLen (c :: cs) = byteLen cs + c.utf8Size := rfl

theorem len_eq_byteLen (s : String) : len s = byteLen s.data := by
  cases s
  rfl

theorem parseLine_spec (y : Nat) : ∀ (cs : List Char) (x : Nat) (level level1 : Level),
    parseLine y cs x level = .ok level1 →
    level1.Map.map List.length = level.Map.map List.length ∧
    ∀ i j, (i ≠ y ∨ j < x ∨ x + byteLen cs ≤ j) →
      cellAt level1.Map i j = cellAt level.Map i j := by
  intro cs
  induction cs with
  | nil =>
    intro x level level1 h
    simp only [parseLine, Except.ok.injEq] at h
    subst h
    exact ⟨rfl, fun _ _ _ => rfl⟩
  | cons c rest ih =>
    intro x level level1 h
    rw [parseLine] at h
    cases htile : tileOfRune c with
    | error e => simp [htile] at h
    | ok tp =>
      obtain ⟨t, isPlayer⟩ := tp
      simp only [htile] at h
      cases hw : writeCell level.Map y x t with
      | none => simp [hw] at h
      | some m =>
        simp only [hw] at h
        have h2 := ih _ _ _ h
        refine ⟨h2.1.trans (writeCell_lengths hw), ?_⟩
        intro i j hij
        have hpos : 0 < c.utf8Size := Char.utf8Size_pos c
        rw [byteLen_cons] at hij
        have e1 : cellAt level1.Map i j = cellAt m i j := by
          apply h2.2
          rcases hij with h3 | h3 | h3
          · exact Or.inl h3
          · exact Or.inr (Or.inl (by omega))
          · exact Or.inr (Or.inr (by omega))
        have e2 : cellAt m i j = cellAt level.Map i j := by
          apply writeCell_cellAt hw
          rcases hij with h3 | h3 | h3
          · exact Or.inl h3
          · exact Or.inr (by omega)
          · exact Or.inr (by omega)
        exact e1.trans e2

theorem parseLines_spec : ∀ (lines : List String) (y : Nat) (level level1 : Level),
    parseLines lines y level = .ok level1 →
    level1.Map.map List.length = level.Map.map List.length ∧
    ∀ i j, (i < y ∨ (∀ line, lines[i - y]? = some line → len line ≤ j)) →
      cellAt level1.Map i j = cellAt level.Map i j := by
  intro lines
  induction lines with
  | nil =>
    intro y level level1 h
    simp only [parseLines, Except.ok.injEq] at h
    subst h
    exact ⟨rfl, fun _ _ _ => rfl⟩
  | cons line rest ih =>
    intro y level level1 h
    unfold parseLines at h
    split at h
    · simp at h
    · rename_i level2 hline
      have h1 := parseLine_spec y _ _ _ _ hline
      have h2 := ih _ _ _ h
      refine ⟨h2.1.trans h1.1, ?_⟩
      intro i j hij
      have e1 : cellAt level1.Map i j = cellAt level2.Map i j := by
        apply h2.2
        rcases hij with h3 | h3
        · exact Or.inl (by omega)
        · by_cases hlt : i < y + 1
          · exact Or.inl hlt
          · right
            intro l hl
            apply h3
            have e : i - y = (i - (y + 1)) + 1 := by omega
            rw [e]
            simpa using hl
      have e2 : cellAt level2.Map i j = cellAt level.Map i j := by
        apply h1.2
        rcases hij with h3 | h3
        · exact Or.inl (by omega)
        · by_cases hiy : i = y
          · subst hiy
            have := h3 line (by simp)
            rw [len_eq_byteLen] at this
            exact Or.inr (Or.inr (by omega))
          · exact Or.inl hiy
      exact e1.trans e2

theorem longestRow_ge (lines : List String) : ∀ acc, acc ≤ longestRow lines acc := by
  induction lines with
  | nil => intro acc; simp [longestRow]
  | cons l rest ih =>
    intro acc
    simp only [longestRow]
    split
    · exact Nat.le_trans (by omega) (ih _)
    · exact ih _

theorem longestRow_mem (lines : List String) :
    ∀ acc, ∀ l ∈ lines, len l ≤ longestRow lines acc := by
  induction lines with
  | nil => intro acc l hl; simp at hl
  | cons l0 rest ih =>
    intro acc l hl
    simp only [longestRow]
    rcases List.mem_cons.mp hl with h | h
    · subst h
      split
      · exact longestRow_ge rest _
      · exact Nat.le_trans (by omega) (longestRow_ge rest _)
    · exact ih _ l h

theorem longestRow_attained (lines : List String) :
    ∀ acc, longestRow lines acc = acc ∨ ∃ l ∈ lines, len l = longestRow lines acc := by
  induction lines with
  | nil => intro acc; left; rfl
  | cons l0 rest ih =>
    intro acc
    simp only [longestRow]
    split
    · rcases ih (len l0) with h | ⟨l, hl, h⟩
      · right; exact ⟨l0, by simp, h.symm⟩
      · right; exact ⟨l, by simp [hl], h⟩
    · rcases ih acc with h | ⟨l, hl, h⟩
      · left; exact h
      · right; exact ⟨l, by simp [hl], h⟩

theorem cellAt_makeMap (lines : List String) (i j : Nat) (hi : i < lines.length)
    (hj : j < longestRow lines 0) : cellAt (makeMap lines) i j = some Blank := by
  simp [cellAt, makeMap, hi, hj]

theorem searchPending_eq (m : List (List Tile)) (x y : Nat) :
    searchPending m x y = searchBody m x y ((x : Int) - 1) ((y : Int) - 1) := rfl

theorem searchPending_spec {m m1 : List (List Tile)} {x y : Nat}
    (h : (searchPending m x y).result = .ok m1) : writeCell m y x DirtFloor = some m1 := by
  rw [searchPending_eq] at h
  unfold searchBody at h
  split at h
  · simp at h
  · split at h
    · split at h
      · simp at h
      · rename_i m2 hw
        simp only [Except.ok.injEq] at h
        rw [← h]
        exact hw
    · simp at h

theorem resolveRow_spec (y : Nat) : ∀ (n x : Nat) (m m1 : List (List Tile)),
    (resolveRow y n x m).result = .ok m1 →
    m1.map List.length = m.map List.length ∧
    ∀ i j, cellAt m i j ≠ some Pending → cellAt m1 i j = cellAt m i j := by
  intro n
  induction n with
  | zero =>
    intro x m m1 h
    simp only [resolveRow, Except.ok.injEq] at h
    subst h
    exact ⟨rfl, fun _ _ _ => rfl⟩
  | succ n ih =>
    intro x m m1 h
    rw [resolveRow] at h
    cases hr : readCell m (y : Int) (x : Int) with
    | none => simp [hr] at h
    | some tile =>
      simp only [hr] at h
      by_cases ht : tile = Pending
      · simp only [ht, if_true] at h
        cases hs : (searchPending m x y).result with
        | error e => simp [hs] at h
        | ok m2 =>
          simp only [hs] at h
          have hw := searchPending_spec hs
          have h2 := ih _ _ _ h
          refine ⟨h2.1.trans (writeCell_lengths hw), ?_⟩
          intro i j hij
          have hne : i ≠ y ∨ j ≠ x := by
            by_contra hc
            push_neg at hc
            obtain ⟨h3, h4⟩ := hc
            subst h3
            subst h4
            rw [readCell_natCast] at hr
            rw [hr, ht] at hij
            exact hij rfl
          have e2 : cellAt m2 i j = cellAt m i j := writeCell_cellAt hw i j hne
          have e1 : cellAt m1 i j = cellAt m2 i j := by
            apply h2.2
            rw [e2]
            exact hij
          exact e1.trans e2
      · simp only [ht, if_false] at h
        exact ih _ _ _ h

theorem resolveRows_spec : ∀ (n y : Nat) (m m1 : List (List Tile)),
    (resolveRows n y m).result = .ok m1 →
    m1.map List.length = m.map List.length ∧
    ∀ i j, cellAt m i j ≠ some Pending → cellAt m1 i j = cellAt m i j := by
  intro n
  induction n with
  | zero =>
    intro y m m1 h
    simp only [resolveRows, Except.ok.injEq] at h
    subst h
    exact ⟨rfl, fun _ _ _ => rfl⟩
  | succ n ih =>
    intro y m m1 h
    rw [resolveRows] at h
    cases hr : (resolveRow y ((m[y]?.getD []).length) 0 m).result with
    | error e => simp [hr] at h
    | ok m2 =>
      simp only [hr] at h
      have h1 := resolveRow_spec y _ _ _ _ hr
      have h2 := ih _ _ _ h
      refine ⟨h2.1.trans h1.1, ?_⟩
      intro i j hij
      have e2 := h1.2 i j hij
      have e1 : cellAt m1 i j = cellAt m2 i j := by
        apply h2.2
        rw [e2]
        exact hij
      exact e1.trans e2

end Game
namespace Game

/-! ### The claims about loadLevelFromFile -/

/-- C1, the code at the failing input. The search of a Pending cell reads one cell
only, the one at row `y - 1`, column `x - 1`, and succeeds exactly when that cell
holds DirtFloor. On the lines "#####", "#P..#", "#####" the first pass leaves
Pending at row 1, column 1 with DirtFloor as its right neighbour, and loading
panics with "Error in searchTile". -/
theorem loadLevel_search_first_cell_only :
    (∀ (m m1 : List (List Tile)) (x y : Nat),
      (searchPending m x y).result = .ok m1 ↔
        (readCell m ((y : Int) - 1) ((x : Int) - 1) = some DirtFloor ∧
          writeCell m y x DirtFloor = some m1)) ∧
    (∃ level, firstPass ["#####", "#P..#", "#####"] = .ok level ∧
      readCell level.Map 1 1 = some Pending ∧ readCell level.Map 1 2 = some DirtFloor) ∧
    loadLevelFromFile ["#####", "#P..#", "#####"] = .error .searchTile := by
  refine ⟨?_, ⟨⟨[[35, 35, 35, 35, 35], [35, -1, 46, 46, 35], [35, 35, 35, 35, 35]], ⟨32, 32⟩⟩,
    by decide, by decide, by decide⟩, by decide⟩
  intro m m1 x y
  rw [searchPending_eq]
  unfold searchBody
  cases hr : readCell m ((y : Int) - 1) ((x : Int) - 1) with
  | none => simp
  | some t =>
    by_cases ht : t = DirtFloor
    · subst ht
      cases hw : writeCell m y x DirtFloor with
      | none => simp
      | some m2 => simp
    · simp [ht]

/-- C2, the code at the failing input. The search of the Pending cell at column `x`
of row `y` uses the index pair (y - 1, x - 1) on the map, whatever the cell's
place in the grid. On the line "P." the pair is (-1, -1) and loading panics with an
index out of range. -/
theorem loadLevel_search_reads_outside :
    (∀ (m : List (List Tile)) (x y : Nat),
      (searchPending m x y).reads = [((y : Int) - 1, (x : Int) - 1)]) ∧
    firstPass ["P."] = .ok ⟨[[Pending, DirtFloor]], ⟨0, 0⟩⟩ ∧
    (secondPass [[Pending, DirtFloor]]).reads = [(-1, -1)] ∧
    loadLevelFromFile ["P."] = .error .indexOutOfRange := by
  refine ⟨?_, by decide, by decide, by decide⟩
  intro m x y
  rw [searchPending_eq]
  unfold searchBody
  split
  · rfl
  · split
    · split <;> rfl
    · rfl

/-- C6. The grid has one row per input line and every row has the length of the
longest line, `longestRow`: this holds for the grid as allocated, for the grid the
first pass leaves and for the grid loadLevelFromFile returns; and in the latter two
every cell at a column at or beyond the end of its own line holds Blank. -/
theorem loadLevel_grid_rectangular (levelLines : List String) :
    (∀ l ∈ levelLines, len l ≤ longestRow levelLines 0) ∧
    (levelLines ≠ [] → ∃ l ∈ levelLines, len l = longestRow levelLines 0) ∧
    (makeMap levelLines).length = levelLines.length ∧
    (∀ row ∈ makeMap levelLines, row.length = longestRow levelLines 0 ∧ ∀ t ∈ row, t = Blank) ∧
    (∀ level, (firstPass levelLines = .ok level ∨ loadLevelFromFile levelLines = .ok level) →
      level.Map.length = levelLines.length ∧
      (∀ row ∈ level.Map, row.length = longestRow levelLines 0) ∧
      ∀ (y x : Nat) (line : String), levelLines[y]? = some line → len line ≤ x →
        x < longestRow levelLines 0 → readCell level.Map y x = some Blank) := by
  have hshape : ∀ level, firstPass levelLines = .ok level →
      level.Map.map List.length = (makeMap levelLines).map List.length ∧
      ∀ (y x : Nat) (line : String), levelLines[y]? = some line → len line ≤ x →
        x < longestRow levelLines 0 → cellAt level.Map y x = some Blank := by
    intro level h
    have h1 := parseLines_spec _ _ _ _ h
    refine ⟨h1.1, ?_⟩
    intro y x line hline hx hlt
    have hy : y < levelLines.length := (List.getElem?_eq_some.mp hline).1
    rw [h1.2 y x (Or.inr (by
      intro l hl
      rw [Nat.sub_zero, hline] at hl
      cases hl
      exact hx))]
    exact cellAt_makeMap levelLines y x hy hlt
  have hfinal : ∀ m : List (List Tile),
      m.map List.length = (makeMap levelLines).map List.length →
      m.length = levelLines.length ∧ ∀ row ∈ m, row.length = longestRow levelLines 0 := by
    intro m hm
    constructor
    · have := congrArg List.length hm
      simpa [makeMap] using this
    · intro row hrow
      have h1 : row.length ∈ m.map List.length := List.mem_map_of_mem _ hrow
      rw [hm] at h1
      simp only [makeMap, List.map_replicate, List.length_replicate] at h1
      exact (List.mem_replicate.mp h1).2
  refine ⟨longestRow_mem levelLines 0, ?_, by simp [makeMap], ?_, ?_⟩
  · intro hne
    rcases longestRow_attained levelLines 0 with h | h
    · cases levelLines with
      | nil => exact absurd rfl hne
      | cons l rest =>
        refine ⟨l, by simp, ?_⟩
        have := longestRow_mem (l :: rest) 0 l (by simp)
        omega
    · exact h
  · intro row hrow
    have h1 := (List.mem_replicate.mp hrow).2
    subst h1
    refine ⟨by simp, ?_⟩
    intro t ht
    exact (List.mem_replicate.mp ht).2
  · intro level hlevel
    rcases hlevel with h | h
    · have h1 := hshape level h
      have h2 := hfinal level.Map h1.1
      refine ⟨h2.1, h2.2, ?_⟩
      intro y x line hline hx hlt
      rw [readCell_natCast]
      exact h1.2 y x line hline hx hlt
    · unfold loadLevelFromFile at h
      cases hf : firstPass levelLines with
      | error e => simp [hf] at h
      | ok level0 =>
        simp only [hf] at h
        cases hs : (secondPass level0.Map).result with
        | error e => simp [hs] at h
        | ok m =>
          simp only [hs, Except.ok.injEq] at h
          subst h
          have h1 := hshape level0 hf
          have h3 := resolveRows_spec _ _ _ _ hs
          have h2 := hfinal m (h3.1.trans h1.1)
          refine ⟨h2.1, h2.2, ?_⟩
          intro y x line hline hx hlt
          rw [readCell_natCast]
          have h4 := h1.2 y x line hline hx hlt
          rw [h3.2 y x (by rw [h4]; decide)]
          exact h4

/-- C6 at concrete lines: the witness lines of the specification through the first
pass (3 rows of length 5), and the lines ". ", " P" through the whole of
loadLevelFromFile. -/
theorem loadLevel_grid_rectangular_witness :
    (firstPass ["#####", "#P..#", "#####"] =
        .ok ⟨[[35, 35, 35, 35, 35], [35, -1, 46, 46, 35], [35, 35, 35, 35, 35]], ⟨32, 32⟩⟩ ∧
      longestRow ["#####", "#P..#", "#####"] 0 = 5 ∧
      ([[35, 35, 35, 35, 35], [35, -1, 46, 46, 35], [35, 35, 35, 35, 35]] :
        List (List Tile)).length = 3 ∧
      ∀ row ∈ ([[35, 35, 35, 35, 35], [35, -1, 46, 46, 35], [35, 35, 35, 35, 35]] :
        List (List Tile)), row.length = 5) ∧
    (loadLevelFromFile [". ", " P"] = .ok ⟨[[46, 0], [0, 46]], ⟨32, 32⟩⟩ ∧
      ∀ row ∈ ([[46, 0], [0, 46]] : List (List Tile)), row.length = 2) := by
  have h1 := (loadLevel_grid_rectangular ["#####", "#P..#", "#####"]).2.2.2.2
    ⟨[[35, 35, 35, 35, 35], [35, -1, 46, 46, 35], [35, 35, 35, 35, 35]], ⟨32, 32⟩⟩
    (Or.inl (by decide))
  have h2 := (loadLevel_grid_rectangular [". ", " P"]).2.2.2.2
    ⟨[[46, 0], [0, 46]], ⟨32, 32⟩⟩ (Or.inr (by decide))
  have e1 : longestRow ["#####", "#P..#", "#####"] 0 = 5 := by decide
  have e2 : longestRow [". ", " P"] 0 = 2 := by decide
  rw [e1] at h1
  rw [e2] at h2
  exact ⟨⟨by decide, e1, h1.1, h1.2.1⟩, by decide, h2.2.1⟩

end Game

namespace World

/-! ### loadTextureIndex: the rectangles of one record -/

theorem toInt32_wrap64_mul (y Y : Int)
    (h : (y - Y) % 18446744073709551616 = 0) :
    toInt32 (wrap64 (y * 32)) = toInt32 (32 * Y) := by
  unfold toInt32 wrap64
  omega

theorem variationLoop_spec : ∀ (k : Nat) (x y Y : Int) (rects : List Rect),
    0 ≤ x → x ≤ 62 → (y - Y) % 18446744073709551616 = 0 →
    variationLoop k x y rects =
      rects ++ (List.range k).map (fun i : Nat =>
        (⟨32 * ((x + (i : Int)) % 63), toInt32 (32 * (Y + (x + (i : Int)) / 63)), 32, 32⟩ : Rect)) := by
  intro k
  induction k with
  | zero => intro x y Y rects _ _ _; simp [variationLoop]
  | succ k ih =>
    intro x y Y rects hx0 hx hy
    have hX : toInt32 (wrap64 (x * 32)) = 32 * ((x + ((0 : Nat) : Int)) % 63) := by
      unfold toInt32 wrap64
      omega
    have hY : toInt32 (wrap64 (y * 32)) = toInt32 (32 * (Y + (x + ((0 : Nat) : Int)) / 63)) := by
      rw [toInt32_wrap64_mul y Y hy]
      congr 1
      omega
    have hx1 : wrap64 (x + 1) = x + 1 := by
      unfold wrap64
      omega
    rw [variationLoop, List.range_succ_eq_map, List.map_cons, List.map_map, hX, hY, hx1]
    by_cases h62 : x + 1 > 62
    · rw [if_pos h62]
      have hy1 : (wrap64 (y + 1) - (Y + 1)) % 18446744073709551616 = 0 := by
        unfold wrap64
        omega
      rw [ih 0 (wrap64 (y + 1)) (Y + 1) _ (le_refl 0) (by norm_num) hy1, List.append_assoc]
      congr 1
      simp only [List.singleton_append, List.cons.injEq, true_and]
      apply List.map_congr_left
      intro i _
      simp only [Function.comp, Nat.cast_succ]
      have e1 : (0 + (i : Int)) % 63 = (x + ((i : Int) + 1)) % 63 := by omega
      have e2 : Y + 1 + (0 + (i : Int)) / 63 = Y + (x + ((i : Int) + 1)) / 63 := by omega
      rw [e1, e2]
    · rw [if_neg h62]
      rw [ih (x + 1) y Y _ (by omega) (by omega) hy, List.append_assoc]
      congr 1
      simp only [List.singleton_append, List.cons.injEq, true_and]
      apply List.map_congr_left
      intro i _
      simp only [Function.comp, Nat.cast_succ]
      have e1 : (x + 1 + (i : Int)) = (x + ((i : Int) + 1)) := by omega
      rw [e1]

/-- C10, the claim as stated fails: for the record with x = 0, y = 67108864 and one
variant, the rectangle stored has Y = -2147483648, not 32 * 67108864 = 2147483648. -/
theorem recordRects_row_overflow :
    (recordRects 0 67108864 1)[0]? = some ⟨0, -2147483648, 32, 32⟩ ∧
    (recordRects 0 67108864 1)[0]? ≠
      some ⟨32 * ((0 + 0) % 63), 32 * (67108864 + (0 + 0) / 63), 32, 32⟩ := by
  decide

/-- C10 as amended. For a record with start column `x` between 0 and 62, any start
row `y` and variant count `n`, the list stored has `n` rectangles (none when
`n` is negative), and the i-th is at column `(x + i) mod 63` of row
`y + (x + i) div 63`: X is 32 times the column, Y is 32 times the row converted to
`int32`, which is 32 times the row whenever that is a value of `int32`. -/
theorem recordRects_spec (x y n : Int) (hx0 : 0 ≤ x) (hx : x ≤ 62) :
    (recordRects x y n).length = n.toNat ∧
    ∀ i : Nat, i < n.toNat →
      (recordRects x y n)[i]? =
        some ⟨32 * ((x + (i : Int)) % 63), toInt32 (32 * (y + (x + (i : Int)) / 63)), 32, 32⟩ ∧
      (0 ≤ y → 32 * (y + (x + (i : Int)) / 63) < 2147483648 →
        (recordRects x y n)[i]? =
          some ⟨32 * ((x + (i : Int)) % 63), 32 * (y + (x + (i : Int)) / 63), 32, 32⟩) := by
  have h := variationLoop_spec n.toNat x y y [] hx0 hx (by simp)
  have hrec : recordRects x y n = (List.range n.toNat).map (fun i : Nat =>
      (⟨32 * ((x + (i : Int)) % 63), toInt32 (32 * (y + (x + (i : Int)) / 63)), 32, 32⟩ : Rect)) := by
    unfold recordRects
    rw [h, List.nil_append]
  constructor
  · rw [hrec]
    simp
  · intro i hi
    have hget : (recordRects x y n)[i]? =
        some ⟨32 * ((x + (i : Int)) % 63), toInt32 (32 * (y + (x + (i : Int)) / 63)), 32, 32⟩ := by
      rw [hrec, List.getElem?_map, List.getElem?_range hi]
      rfl
    refine ⟨hget, ?_⟩
    intro hy hlt
    rw [hget]
    have e : toInt32 (32 * (y + (x + (i : Int)) / 63)) = 32 * (y + (x + (i : Int)) / 63) := by
      unfold toInt32
      omega
    rw [e]

/-- C10 as amended, at the record x = 61, y = 3, n = 4: the columns run 61, 62, 0, 1
and the row advances from 3 to 4 at the wrap. -/
theorem recordRects_spec_witness :
    recordRects 61 3 4 =
      [⟨1952, 96, 32, 32⟩, ⟨1984, 96, 32, 32⟩, ⟨0, 128, 32, 32⟩, ⟨32, 128, 32, 32⟩] ∧
    (recordRects 61 3 4).length = 4 ∧
    (recordRects 61 3 4)[2]? = some ⟨32 * ((61 + 2) % 63), 32 * (3 + (61 + 2) / 63), 32, 32⟩ :=
  ⟨by decide, (recordRects_spec 61 3 4 (by decide) (by decide)).1,
    ((recordRects_spec 61 3 4 (by decide) (by decide)).2 2 (by decide)).2 (by decide) (by decide)⟩

end World

namespace World

/-! ### Draw: the camera update -/

theorem cameraAfter_succ (px py : Int) : ∀ (n : Nat) (c : Int × Int),
    cameraAfter px py (n + 1) c =
      updateCamera (cameraAfter px py n c).1 (cameraAfter px py n c).2 px py := by
  intro n
  induction n with
  | zero => intro c; rfl
  | succ n ih =>
    intro c
    rw [cameraAfter, ih]
    rfl

theorem cameraAfter_add (px py : Int) : ∀ (n m : Nat) (c : Int × Int),
    cameraAfter px py (n + m) c = cameraAfter px py m (cameraAfter px py n c) := by
  intro n
  induction n with
  | zero => intro m c; simp [cameraAfter]
  | succ n ih =>
    intro m c
    have e : n + 1 + m = (n + m) + 1 := by omega
    rw [e, cameraAfter, ih, cameraAfter]

/-- One camera update, with all coordinates of magnitude below 2^62: the centre stays
in those bounds and between its old place and the player; a displacement beyond the
deadzone on one axis only shrinks and the other axis stays within the deadzone; a
centre within the deadzone on both axes stays where it is unless it is the marker
(-1, -1), and is fixed after one update in any case. -/
theorem updateCamera_step (cx cy px py : Int)
    (hcx : -4611686018427387904 < cx ∧ cx < 4611686018427387904)
    (hcy : -4611686018427387904 < cy ∧ cy < 4611686018427387904)
    (hpx : -4611686018427387904 < px ∧ px < 4611686018427387904)
    (hpy : -4611686018427387904 < py ∧ py < 4611686018427387904) :
    ((-4611686018427387904 < (updateCamera cx cy px py).1 ∧
        (updateCamera cx cy px py).1 < 4611686018427387904) ∧
      (-4611686018427387904 < (updateCamera cx cy px py).2 ∧
        (updateCamera cx cy px py).2 < 4611686018427387904)) ∧
    ((cx ≤ px → cx ≤ (updateCamera cx cy px py).1 ∧ (updateCamera cx cy px py).1 ≤ px) ∧
      (px ≤ cx → px ≤ (updateCamera cx cy px py).1 ∧ (updateCamera cx cy px py).1 ≤ cx) ∧
      (cy ≤ py → cy ≤ (updateCamera cx cy px py).2 ∧ (updateCamera cx cy px py).2 ≤ py) ∧
      (py ≤ cy → py ≤ (updateCamera cx cy px py).2 ∧ (updateCamera cx cy px py).2 ≤ cy)) ∧
    (5 < (px - cx).natAbs → (py - cy).natAbs ≤ 5 →
      (px - (updateCamera cx cy px py).1).natAbs < (px - cx).natAbs ∧
      (py - (updateCamera cx cy px py).2).natAbs ≤ 5) ∧
    (5 < (py - cy).natAbs → (px - cx).natAbs ≤ 5 →
      (py - (updateCamera cx cy px py).2).natAbs < (py - cy).natAbs ∧
      (px - (updateCamera cx cy px py).1).natAbs ≤ 5) ∧
    ((px - cx).natAbs ≤ 5 → (py - cy).natAbs ≤ 5 →
      (¬ (cx = -1 ∧ cy = -1) → updateCamera cx cy px py = (cx, cy)) ∧
      (px - (updateCamera cx cy px py).1).natAbs ≤ 5 ∧
      (py - (updateCamera cx cy px py).2).natAbs ≤ 5 ∧
      updateCamera (updateCamera cx cy px py).1 (updateCamera cx cy px py).2 px py =
        updateCamera cx cy px py) := by
  have hw : ∀ z : Int, -9223372036854775808 ≤ z → z < 9223372036854775808 → wrap64 z = z := by
    intro z h1 h2
    unfold wrap64
    omega
  by_cases hs : cx = -1 ∧ cy = -1
  · have hu : updateCamera cx cy px py = (px, py) := by
      unfold updateCamera
      simp only [hs, and_self, if_true]
      rw [hw (px + 5) (by omega) (by omega), hw (px - 5) (by omega) (by omega),
        hw (py + 5) (by omega) (by omega), hw (py - 5) (by omega) (by omega)]
      have n1 : ¬ px > px + 5 := by omega
      have n2 : ¬ px < px - 5 := by omega
      have n3 : ¬ py > py + 5 := by omega
      have n4 : ¬ py < py - 5 := by omega
      simp only [n1, n2, n3, n4, if_false]
    have hu2 : updateCamera px py px py = (px, py) := by
      unfold updateCamera
      simp only [ite_self]
      rw [hw (px + 5) (by omega) (by omega), hw (px - 5) (by omega) (by omega),
        hw (py + 5) (by omega) (by omega), hw (py - 5) (by omega) (by omega)]
      have n1 : ¬ px > px + 5 := by omega
      have n2 : ¬ px < px - 5 := by omega
      have n3 : ¬ py > py + 5 := by omega
      have n4 : ¬ py < py - 5 := by omega
      simp only [n1, n2, n3, n4, if_false]
    rw [hu]
    simp only [hu2]
    refine ⟨⟨hpx, hpy⟩, ⟨?_, ?_, ?_, ?_⟩, ?_, ?_, ?_⟩
    · intro h; omega
    · intro h; omega
    · intro h; omega
    · intro h; omega
    · intro h1 h2; omega
    · intro h1 h2; omega
    · intro h1 h2
      refine ⟨fun h => absurd hs h, by omega, by omega, trivial⟩
  · have hu : updateCamera cx cy px py =
        if px > cx + 5 then (cx + 1, cy)
        else if px < cx - 5 then (cx - 1, cy)
        else if py > cy + 5 then (cx, cy + 1)
        else if py < cy - 5 then (cx, cy - 1)
        else (cx, cy) := by
      unfold updateCamera
      simp only [hs, if_false]
      rw [hw (cx + 5) (by omega) (by omega), hw (cx - 5) (by omega) (by omega),
        hw (cy + 5) (by omega) (by omega), hw (cy - 5) (by omega) (by omega),
        hw (cx + 1) (by omega) (by omega), hw (cx - 1) (by omega) (by omega),
        hw (cy + 1) (by omega) (by omega), hw (cy - 1) (by omega) (by omega)]
    have hfix : (px - cx).natAbs ≤ 5 → (py - cy).natAbs ≤ 5 →
        updateCamera cx cy px py = (cx, cy) := by
      intro h1 h2
      have n1 : ¬ px > cx + 5 := by omega
      have n2 : ¬ px < cx - 5 := by omega
      have n3 : ¬ py > cy + 5 := by omega
      have n4 : ¬ py < cy - 5 := by omega
      rw [hu]
      simp only [n1, n2, n3, n4, if_false]
    refine ⟨?_, ?_, ?_, ?_, ?_⟩
    · rw [hu]
      split
      · exact ⟨by constructor <;> simp only <;> omega, hcy⟩
      · split
        · exact ⟨by constructor <;> simp only <;> omega, hcy⟩
        · split
          · exact ⟨hcx, by constructor <;> simp only <;> omega⟩
          · split
            · exact ⟨hcx, by constructor <;> simp only <;> omega⟩
            · exact ⟨hcx, hcy⟩
    · rw [hu]
      split
      · simp only; omega
      · split
        · simp only; omega
        · split
          · simp only; omega
          · split
            · simp only; omega
            · simp only; omega
    · intro h1 h2
      rw [hu]
      split
      · simp only; omega
      · split
        · simp only; omega
        · omega
    · intro h1 h2
      have n1 : ¬ px > cx + 5 := by omega
      have n2 : ¬ px < cx - 5 := by omega
      rw [hu]
      simp only [n1, n2, if_false]
      split
      · simp only; omega
      · split
        · simp only; omega
        · omega
    · intro h1 h2
      have e := hfix h1 h2
      rw [e]
      exact ⟨fun _ => rfl, h1, h2, e⟩

/-- The centres of successive Draws stay in bounds and between the first centre and
the player, on both axes. -/
theorem cameraAfter_between (cx cy px py : Int)
    (hcx : -4611686018427387904 < cx ∧ cx < 4611686018427387904)
    (hcy : -4611686018427387904 < cy ∧ cy < 4611686018427387904)
    (hpx : -4611686018427387904 < px ∧ px < 4611686018427387904)
    (hpy : -4611686018427387904 < py ∧ py < 4611686018427387904) (k : Nat) :
    ((-4611686018427387904 < (cameraAfter px py k (cx, cy)).1 ∧
        (cameraAfter px py k (cx, cy)).1 < 4611686018427387904) ∧
      (-4611686018427387904 < (cameraAfter px py k (cx, cy)).2 ∧
        (cameraAfter px py k (cx, cy)).2 < 4611686018427387904)) ∧
    (cx ≤ px → cx ≤ (cameraAfter px py k (cx, cy)).1 ∧ (cameraAfter px py k (cx, cy)).1 ≤ px) ∧
    (px ≤ cx → px ≤ (cameraAfter px py k (cx, cy)).1 ∧ (cameraAfter px py k (cx, cy)).1 ≤ cx) ∧
    (cy ≤ py → cy ≤ (cameraAfter px py k (cx, cy)).2 ∧ (cameraAfter px py k (cx, cy)).2 ≤ py) ∧
    (py ≤ cy → py ≤ (cameraAfter px py k (cx, cy)).2 ∧ (cameraAfter px py k (cx, cy)).2 ≤ cy) := by
  induction k with
  | zero =>
    simp only [cameraAfter]
    exact ⟨⟨hcx, hcy⟩, by omega, by omega, by omega, by omega⟩
  | succ k ih =>
    rw [cameraAfter_succ]
    obtain ⟨⟨b1, b2⟩, i1, i2, i3, i4⟩ := ih
    have hs := updateCamera_step (cameraAfter px py k (cx, cy)).1
      (cameraAfter px py k (cx, cy)).2 px py b1 b2 hpx hpy
    obtain ⟨hb, ⟨s1, s2, s3, s4⟩, _⟩ := hs
    refine ⟨hb, ?_, ?_, ?_, ?_⟩
    · intro h
      have a := i1 h
      have b := s1 a.2
      omega
    · intro h
      have a := i2 h
      have b := s2 a.1
      omega
    · intro h
      have a := i3 h
      have b := s3 a.2
      omega
    · intro h
      have a := i4 h
      have b := s4 a.1
      omega

/-- A centre that is within the deadzone on both axes is fixed after one update. -/
theorem cameraAfter_settled (px py : Int)
    (hpx : -4611686018427387904 < px ∧ px < 4611686018427387904)
    (hpy : -4611686018427387904 < py ∧ py < 4611686018427387904) (c : Int × Int)
    (hcx : -4611686018427387904 < c.1 ∧ c.1 < 4611686018427387904)
    (hcy : -4611686018427387904 < c.2 ∧ c.2 < 4611686018427387904)
    (hx : (px - c.1).natAbs ≤ 5) (hy : (py - c.2).natAbs ≤ 5) :
    ∀ j : Nat, cameraAfter px py (j + 1) c = updateCamera c.1 c.2 px py := by
  have hs := (updateCamera_step c.1 c.2 px py hcx hcy hpx hpy).2.2.2.2 hx hy
  intro j
  induction j with
  | zero => rfl
  | succ j ih =>
    rw [cameraAfter_succ, ih]
    exact hs.2.2.2

/-- A displacement of at most `5 + n` on the x axis, with the y axis within the
deadzone, is within the deadzone on both axes after `n` updates. -/
theorem cameraAfter_reaches_x (px py : Int)
    (hpx : -4611686018427387904 < px ∧ px < 4611686018427387904)
    (hpy : -4611686018427387904 < py ∧ py < 4611686018427387904) :
    ∀ (n : Nat) (c : Int × Int),
      (-4611686018427387904 < c.1 ∧ c.1 < 4611686018427387904) →
      (-4611686018427387904 < c.2 ∧ c.2 < 4611686018427387904) →
      (px - c.1).natAbs ≤ 5 + n → (py - c.2).natAbs ≤ 5 →
      (px - (cameraAfter px py n c).1).natAbs ≤ 5 ∧
      (py - (cameraAfter px py n c).2).natAbs ≤ 5 := by
  intro n
  induction n with
  | zero => intro c _ _ hx hy; exact ⟨by simpa [cameraAfter] using hx, by simpa [cameraAfter] using hy⟩
  | succ n ih =>
    intro c hcx hcy hx hy
    rw [cameraAfter]
    obtain ⟨⟨b1, b2⟩, _, s3, _, s5⟩ := updateCamera_step c.1 c.2 px py hcx hcy hpx hpy
    by_cases h5 : 5 < (px - c.1).natAbs
    · have a := s3 h5 hy
      exact ih _ b1 b2 (by omega) a.2
    · have a := s5 (by omega) hy
      exact ih _ b1 b2 (by omega) a.2.2.1

/-- The same with the axes exchanged. -/
theorem cameraAfter_reaches_y (px py : Int)
    (hpx : -4611686018427387904 < px ∧ px < 4611686018427387904)
    (hpy : -4611686018427387904 < py ∧ py < 4611686018427387904) :
    ∀ (n : Nat) (c : Int × Int),
      (-4611686018427387904 < c.1 ∧ c.1 < 4611686018427387904) →
      (-4611686018427387904 < c.2 ∧ c.2 < 4611686018427387904) →
      (py - c.2).natAbs ≤ 5 + n → (px - c.1).natAbs ≤ 5 →
      (px - (cameraAfter px py n c).1).natAbs ≤ 5 ∧
      (py - (cameraAfter px py n c).2).natAbs ≤ 5 := by
  intro n
  induction n with
  | zero => intro c _ _ hy hx; exact ⟨by simpa [cameraAfter] using hx, by simpa [cameraAfter] using hy⟩
  | succ n ih =>
    intro c hcx hcy hy hx
    rw [cameraAfter]
    obtain ⟨⟨b1, b2⟩, _, _, s4, s5⟩ := updateCamera_step c.1 c.2 px py hcx hcy hpx hpy
    by_cases h5 : 5 < (py - c.2).natAbs
    · have a := s4 h5 hx
      exact ih _ b1 b2 (by omega) a.2
    · have a := s5 hx (by omega)
      exact ih _ b1 b2 (by omega) a.2.1

/-- Once both axes are within the deadzone after `n` updates, the centre is the same
after every later update but possibly the first. -/
theorem cameraAfter_stable (cx cy px py : Int)
    (hcx : -4611686018427387904 < cx ∧ cx < 4611686018427387904)
    (hcy : -4611686018427387904 < cy ∧ cy < 4611686018427387904)
    (hpx : -4611686018427387904 < px ∧ px < 4611686018427387904)
    (hpy : -4611686018427387904 < py ∧ py < 4611686018427387904) (n : Nat)
    (hx : (px - (cameraAfter px py n (cx, cy)).1).natAbs ≤ 5)
    (hy : (py - (cameraAfter px py n (cx, cy)).2).natAbs ≤ 5) :
    ∀ k, n + 1 ≤ k →
      ((px - (cameraAfter px py k (cx, cy)).1).natAbs ≤ 5 ∧
        (py - (cameraAfter px py k (cx, cy)).2).natAbs ≤ 5) ∧
      cameraAfter px py (k + 1) (cx, cy) = cameraAfter px py k (cx, cy) := by
  intro k hk
  obtain ⟨⟨b1, b2⟩, _⟩ := cameraAfter_between cx cy px py hcx hcy hpx hpy n
  have hset := cameraAfter_settled px py hpx hpy (cameraAfter px py n (cx, cy)) b1 b2 hx hy
  have hs := (updateCamera_step (cameraAfter px py n (cx, cy)).1
    (cameraAfter px py n (cx, cy)).2 px py b1 b2 hpx hpy).2.2.2.2 hx hy
  have e1 : cameraAfter px py k (cx, cy) =
      updateCamera (cameraAfter px py n (cx, cy)).1 (cameraAfter px py n (cx, cy)).2 px py := by
    have e : k = n + ((k - n - 1) + 1) := by omega
    rw [e, cameraAfter_add, hset]
  have e2 : cameraAfter px py (k + 1) (cx, cy) =
      updateCamera (cameraAfter px py n (cx, cy)).1 (cameraAfter px py n (cx, cy)).2 px py := by
    have e : k + 1 = n + ((k - n) + 1) := by omega
    rw [e, cameraAfter_add, hset]
  rw [e1, e2]
  exact ⟨⟨hs.2.1, hs.2.2.1⟩, rfl⟩

/-- C5, the claim as stated fails. With the centre at (-2, -1) and the player at
(4, -1), the first Draw brings the centre to (-1, -1), within the deadzone, and the
second Draw moves it again, onto the player at (4, -1): (-1, -1) is the marker of an
unset centre. With the centre at (9223372036854775805, 0) and the player at
(9223372036854775798, 0), seven to its left, the sum `centerX + limit` wraps and
Draw moves the centre one to the right, away from the player. -/
theorem camera_marker_and_overflow :
    (5 < ((4 : Int) - (-2)).natAbs ∧ (((-1 : Int)) - (-1)).natAbs ≤ 5 ∧
      cameraAfter 4 (-1) 1 (-2, -1) = (-1, -1) ∧ ((4 : Int) - (-1)).natAbs ≤ 5 ∧
      cameraAfter 4 (-1) 2 (-2, -1) = (4, -1)) ∧
    (5 < ((9223372036854775798 : Int) - 9223372036854775805).natAbs ∧
      updateCamera 9223372036854775805 0 9223372036854775798 0 = (9223372036854775806, 0) ∧
      ((9223372036854775798 : Int) - 9223372036854775805).natAbs <
        ((9223372036854775798 : Int) - 9223372036854775806).natAbs) := by
  decide

/-- The camera walk for a player displaced beyond the deadzone on the x axis only. -/
theorem camera_converges_x (cx cy px py : Int)
    (hcx : -4611686018427387904 < cx ∧ cx < 4611686018427387904)
    (hcy : -4611686018427387904 < cy ∧ cy < 4611686018427387904)
    (hpx : -4611686018427387904 < px ∧ px < 4611686018427387904)
    (hpy : -4611686018427387904 < py ∧ py < 4611686018427387904) :
    (5 < (px - cx).natAbs → (py - cy).natAbs ≤ 5 →
      (∀ k : Nat,
        (5 < (px - (cameraAfter px py k (cx, cy)).1).natAbs →
          (px - (cameraAfter px py (k + 1) (cx, cy)).1).natAbs <
            (px - (cameraAfter px py k (cx, cy)).1).natAbs) ∧
        (cx < px → (cameraAfter px py k (cx, cy)).1 ≤ px) ∧
        (px < cx → px ≤ (cameraAfter px py k (cx, cy)).1) ∧
        (py - (cameraAfter px py k (cx, cy)).2).natAbs ≤ 5 ∧
        ((px - (cameraAfter px py k (cx, cy)).1).natAbs ≤ 5 →
          cameraAfter px py k (cx, cy) ≠ (-1, -1) →
          cameraAfter px py (k + 1) (cx, cy) = cameraAfter px py k (cx, cy))) ∧
      (∃ T : Nat, ∀ k, T ≤ k →
        (px - (cameraAfter px py k (cx, cy)).1).natAbs ≤ 5 ∧
        cameraAfter px py (k + 1) (cx, cy) = cameraAfter px py k (cx, cy))) := by
  intro hx hy
  constructor
  · intro k
    obtain ⟨⟨b1, b2⟩, i1, i2, i3, i4⟩ := cameraAfter_between cx cy px py hcx hcy hpx hpy k
    have hyk : (py - (cameraAfter px py k (cx, cy)).2).natAbs ≤ 5 := by omega
    obtain ⟨_, _, s3, _, s5⟩ := updateCamera_step (cameraAfter px py k (cx, cy)).1
      (cameraAfter px py k (cx, cy)).2 px py b1 b2 hpx hpy
    refine ⟨?_, by omega, by omega, hyk, ?_⟩
    · intro h5
      rw [cameraAfter_succ]
      exact (s3 h5 hyk).1
    · intro h5 hne
      rw [cameraAfter_succ]
      apply (s5 h5 hyk).1
      intro hm
      apply hne
      exact Prod.ext hm.1 hm.2
  · have hr := cameraAfter_reaches_x px py hpx hpy ((px - cx).natAbs - 5) (cx, cy) hcx hcy
      (by simp only; omega) hy
    refine ⟨(px - cx).natAbs - 5 + 1, ?_⟩
    intro k hk
    have hst := cameraAfter_stable cx cy px py hcx hcy hpx hpy _ hr.1 hr.2 k hk
    exact ⟨hst.1.1, hst.2⟩

/-- The camera walk for a player displaced beyond the deadzone on the y axis only. -/
theorem camera_converges_y (cx cy px py : Int)
    (hcx : -4611686018427387904 < cx ∧ cx < 4611686018427387904)
    (hcy : -4611686018427387904 < cy ∧ cy < 4611686018427387904)
    (hpx : -4611686018427387904 < px ∧ px < 4611686018427387904)
    (hpy : -4611686018427387904 < py ∧ py < 4611686018427387904) :
    (5 < (py - cy).natAbs → (px - cx).natAbs ≤ 5 →
      (∀ k : Nat,
        (5 < (py - (cameraAfter px py k (cx, cy)).2).natAbs →
          (py - (cameraAfter px py (k + 1) (cx, cy)).2).natAbs <
            (py - (cameraAfter px py k (cx, cy)).2).natAbs) ∧
        (cy < py → (cameraAfter px py k (cx, cy)).2 ≤ py) ∧
        (py < cy → py ≤ (cameraAfter px py k (cx, cy)).2) ∧
        (px - (cameraAfter px py k (cx, cy)).1).natAbs ≤ 5 ∧
        ((py - (cameraAfter px py k (cx, cy)).2).natAbs ≤ 5 →
          cameraAfter px py k (cx, cy) ≠ (-1, -1) →
          cameraAfter px py (k + 1) (cx, cy) = cameraAfter px py k (cx, cy))) ∧
      (∃ T : Nat, ∀ k, T ≤ k →
        (py - (cameraAfter px py k (cx, cy)).2).natAbs ≤ 5 ∧
        cameraAfter px py (k + 1) (cx, cy) = cameraAfter px py k (cx, cy))) := by
  intro hy hx
  constructor
  · intro k
    obtain ⟨⟨b1, b2⟩, i1, i2, i3, i4⟩ := cameraAfter_between cx cy px py hcx hcy hpx hpy k
    have hxk : (px - (cameraAfter px py k (cx, cy)).1).natAbs ≤ 5 := by omega
    obtain ⟨_, _, _, s4, s5⟩ := updateCamera_step (cameraAfter px py k (cx, cy)).1
      (cameraAfter px py k (cx, cy)).2 px py b1 b2 hpx hpy
    refine ⟨?_, by omega, by omega, hxk, ?_⟩
    · intro h5
      rw [cameraAfter_succ]
      exact (s4 h5 hxk).1
    · intro h5 hne
      rw [cameraAfter_succ]
      apply (s5 hxk h5).1
      intro hm
      apply hne
      exact Prod.ext hm.1 hm.2
  · have hr := cameraAfter_reaches_y px py hpx hpy ((py - cy).natAbs - 5) (cx, cy) hcx hcy
      (by simp only; omega) hx
    refine ⟨(py - cy).natAbs - 5 + 1, ?_⟩
    intro k hk
    have hst := cameraAfter_stable cx cy px py hcx hcy hpx hpy _ hr.1 hr.2 k hk
    exact ⟨hst.1.2, hst.2⟩

/-- C5 as amended. With all coordinates of magnitude below 2^62, the player fixed and
displaced beyond the deadzone on the x axis only: on every Draw the displacement
on x, while above 5, strictly decreases; the centre never passes the player; the y
displacement stays within the deadzone; a centre within the deadzone that is not
the marker (-1, -1) does not change; and from some Draw on the displacement is at
most 5 and the centre no longer changes. The same holds with the axes exchanged. -/
theorem camera_converges (cx cy px py : Int)
    (hcx : -4611686018427387904 < cx ∧ cx < 4611686018427387904)
    (hcy : -4611686018427387904 < cy ∧ cy < 4611686018427387904)
    (hpx : -4611686018427387904 < px ∧ px < 4611686018427387904)
    (hpy : -4611686018427387904 < py ∧ py < 4611686018427387904) :
    (5 < (px - cx).natAbs → (py - cy).natAbs ≤ 5 →
      (∀ k : Nat,
        (5 < (px - (cameraAfter px py k (cx, cy)).1).natAbs →
          (px - (cameraAfter px py (k + 1) (cx, cy)).1).natAbs <
            (px - (cameraAfter px py k (cx, cy)).1).natAbs) ∧
        (cx < px → (cameraAfter px py k (cx, cy)).1 ≤ px) ∧
        (px < cx → px ≤ (cameraAfter px py k (cx, cy)).1) ∧
        (py - (cameraAfter px py k (cx, cy)).2).natAbs ≤ 5 ∧
        ((px - (cameraAfter px py k (cx, cy)).1).natAbs ≤ 5 →
          cameraAfter px py k (cx, cy) ≠ (-1, -1) →
          cameraAfter px py (k + 1) (cx, cy) = cameraAfter px py k (cx, cy))) ∧
      (∃ T : Nat, ∀ k, T ≤ k →
        (px - (cameraAfter px py k (cx, cy)).1).natAbs ≤ 5 ∧
        cameraAfter px py (k + 1) (cx, cy) = cameraAfter px py k (cx, cy))) ∧
    (5 < (py - cy).natAbs → (px - cx).natAbs ≤ 5 →
      (∀ k : Nat,
        (5 < (py - (cameraAfter px py k (cx, cy)).2).natAbs →
          (py - (cameraAfter px py (k + 1) (cx, cy)).2).natAbs <
            (py - (cameraAfter px py k (cx, cy)).2).natAbs) ∧
        (cy < py → (cameraAfter px py k (cx, cy)).2 ≤ py) ∧
        (py < cy → py ≤ (cameraAfter px py k (cx, cy)).2) ∧
        (px - (cameraAfter px py k (cx, cy)).1).natAbs ≤ 5 ∧
        ((py - (cameraAfter px py k (cx, cy)).2).natAbs ≤ 5 →
          cameraAfter px py k (cx, cy) ≠ (-1, -1) →
          cameraAfter px py (k + 1) (cx, cy) = cameraAfter px py k (cx, cy))) ∧
      (∃ T : Nat, ∀ k, T ≤ k →
        (py - (cameraAfter px py k (cx, cy)).2).natAbs ≤ 5 ∧
        cameraAfter px py (k + 1) (cx, cy) = cameraAfter px py k (cx, cy))) :=
  ⟨camera_converges_x cx cy px py hcx hcy hpx hpy, camera_converges_y cx cy px py hcx hcy hpx hpy⟩

/-- C5 as amended, at the centre (0, 0) with the player at (8, 2) for the x axis and
at the centre (0, 0) with the player at (2, 8) for the y axis: after three Draws
the centre is at (3, 0), resp. (0, 3), five away from the player. -/
theorem camera_converges_witness :
    (cameraAfter 8 2 3 (0, 0) = (3, 0) ∧
      ∃ T : Nat, ∀ k, T ≤ k →
        ((8 : Int) - (cameraAfter 8 2 k (0, 0)).1).natAbs ≤ 5 ∧
        cameraAfter 8 2 (k + 1) (0, 0) = cameraAfter 8 2 k (0, 0)) ∧
    (cameraAfter 2 8 3 (0, 0) = (0, 3) ∧
      ∃ T : Nat, ∀ k, T ≤ k →
        ((8 : Int) - (cameraAfter 2 8 k (0, 0)).2).natAbs ≤ 5 ∧
        cameraAfter 2 8 (k + 1) (0, 0) = cameraAfter 2 8 k (0, 0)) :=
  ⟨⟨by decide, ((camera_converges 0 0 8 2 (by decide) (by decide) (by decide) (by decide)).1
      (by decide) (by decide)).2⟩,
    ⟨by decide, ((camera_converges 0 0 2 8 (by decide) (by decide) (by decide) (by decide)).2
      (by decide) (by decide)).2⟩⟩

end World

namespace World

/-! ### Draw: the walk over the event buffer -/

theorem slotAt_range (events : List String) (eventPos : Int) (k : Nat)
    (hn : 1 ≤ events.length) :
    0 ≤ slotAt events eventPos k ∧ (slotAt events eventPos k).toNat < events.length := by
  have hpos : (0 : Int) < (events.length : Int) := by omega
  have h1 := Int.emod_nonneg (eventPos + (k : Int)) (ne_of_gt hpos)
  have h2 := Int.emod_lt_of_pos (eventPos + (k : Int)) hpos
  unfold slotAt
  omega

theorem slotAt_succ (events : List String) (eventPos : Int) (k : Nat)
    (hn : 1 ≤ events.length) :
    Int.tmod (slotAt events eventPos k + 1) (events.length : Int) =
      slotAt events eventPos (k + 1) := by
  have h := slotAt_range events eventPos k hn
  rw [Int.tmod_eq_emod (by omega) (by omega)]
  unfold slotAt
  rw [Int.emod_add_emod]
  congr 1
  push_cast
  ring

theorem slotAt_eq_start (events : List String) (eventPos : Int) (j : Nat)
    (h0 : 0 ≤ eventPos) (h1 : eventPos < events.length) (hj0 : 0 < j)
    (hj : j ≤ events.length) :
    slotAt events eventPos j = eventPos ↔ j = events.length := by
  unfold slotAt
  constructor
  · intro h
    by_contra hne
    have hlt : j < events.length := by omega
    by_cases hc : eventPos + (j : Int) < (events.length : Int)
    · rw [Int.emod_eq_of_lt (by omega) hc] at h
      omega
    · rw [Int.emod_eq_sub_self_emod, Int.emod_eq_of_lt (by omega) (by omega)] at h
      omega
  · intro h
    subst h
    rw [Int.add_emod_self, Int.emod_eq_of_lt h0 h1]

theorem slotAt_injective (events : List String) (eventPos : Int) (a b : Nat)
    (ha : a < events.length) (hb : b < events.length)
    (h : slotAt events eventPos a = slotAt events eventPos b) : a = b := by
  unfold slotAt at h
  have h2 := Int.emod_emod_of_dvd
  have hd : (events.length : Int) ∣ (eventPos + (a : Int)) - (eventPos + (b : Int)) :=
    Int.ModEq.dvd h.symm
  have h3 : (eventPos + (a : Int)) - (eventPos + (b : Int)) = 0 := by
    apply Int.eq_zero_of_abs_lt_dvd hd
    rw [abs_lt]
    constructor <;> omega
  omega

theorem drawn_strings (events : List String) (eventPos : Int) (l : List Nat) :
    (l.filterMap (drawnAt events eventPos)).map Prod.fst =
      ((l.map (slotAt events eventPos)).filterMap (fun i => events[i.toNat]?)).filter
        (fun event => event ≠ "") := by
  induction l with
  | nil => rfl
  | cons k rest ih =>
    cases hev : events[(slotAt events eventPos k).toNat]? with
    | none =>
      have hd : drawnAt events eventPos k = none := by
        unfold drawnAt
        rw [hev]
      simp only [List.map_cons, List.filterMap_cons, hd, hev]
      exact ih
    | some event =>
      by_cases hne : event ≠ ""
      · have hd : drawnAt events eventPos k = some (event, k) := by
          unfold drawnAt
          rw [hev]
          exact if_pos hne
        have hdec : decide (event ≠ "") = true := decide_eq_true hne
        simp only [List.map_cons, List.filterMap_cons, hd, hev, List.filter_cons]
        rw [ih, if_pos hdec]
      · have hd : drawnAt events eventPos k = none := by
          unfold drawnAt
          rw [hev]
          exact if_neg hne
        have hdec : ¬ decide (event ≠ "") = true := fun h => hne (of_decide_eq_true h)
        simp only [List.map_cons, List.filterMap_cons, hd, hev, List.filter_cons]
        rw [ih, if_neg hdec]

theorem eventLoop_spec (events : List String) (eventPos : Int)
    (hn : 1 ≤ events.length) (h0 : 0 ≤ eventPos) (h1 : eventPos < events.length) :
    ∀ (fuel k : Nat) (e : WalkEnd), k < events.length → events.length ≤ k + fuel →
      eventLoop events eventPos fuel (slotAt events eventPos k)
        ⟨(List.range k).map (slotAt events eventPos),
          (List.range k).filterMap (drawnAt events eventPos), k, e⟩ =
      ⟨(List.range events.length).map (slotAt events eventPos),
        (List.range events.length).filterMap (drawnAt events eventPos), events.length,
        .finished⟩ := by
  intro fuel
  induction fuel with
  | zero => intro k e hk hf; omega
  | succ fuel ih =>
    intro k e hk hf
    have hr := slotAt_range events eventPos k hn
    rw [eventLoop, if_pos hr.1]
    cases hev : events[(slotAt events eventPos k).toNat]? with
    | none =>
      rw [List.getElem?_eq_none_iff] at hev
      omega
    | some event =>
      simp only []
      rw [slotAt_succ events eventPos k hn]
      have hreads : (List.range k).map (slotAt events eventPos) ++ [slotAt events eventPos k] =
          (List.range (k + 1)).map (slotAt events eventPos) := by
        rw [List.range_succ, List.map_append]
        rfl
      have hdrawn : (if event ≠ "" then
            (List.range k).filterMap (drawnAt events eventPos) ++ [(event, k)]
          else (List.range k).filterMap (drawnAt events eventPos)) =
          (List.range (k + 1)).filterMap (drawnAt events eventPos) := by
        rw [List.range_succ, List.filterMap_append]
        have hd : drawnAt events eventPos k = if event ≠ "" then some (event, k) else none := by
          unfold drawnAt
          rw [hev]
        by_cases hne : event ≠ ""
        · rw [if_pos hne] at hd ⊢
          simp [List.filterMap_cons, hd]
        · rw [if_neg hne] at hd ⊢
          simp [List.filterMap_cons, hd]
      rw [hreads, hdrawn]
      have hiff := slotAt_eq_start events eventPos (k + 1) h0 h1 (by omega) (by omega)
      by_cases hend : slotAt events eventPos (k + 1) = eventPos
      · rw [if_pos hend]
        have hk1 := hiff.mp hend
        rw [hk1]
      · rw [if_neg hend]
        have hk1 : k + 1 < events.length := by
          rcases Nat.lt_or_ge (k + 1) events.length with h | h
          · exact h
          · exact absurd (hiff.mpr (by omega)) hend
        exact ih (k + 1) e hk1 (by omega)

/-- C4. For an event buffer of length `n ≥ 1` and a cursor `0 ≤ EventPos < n`, the
walk of Draw, allowed at least `n` iterations, ends by coming back to EventPos
after exactly `n` iterations; it reads the slots `(EventPos + k) mod n` for
`k = 0, ..., n - 1` in that order, each slot once; the strings it draws are the
non-empty ones among the slots read, in that order, the `k`-th slot on line `k`. -/
theorem drawEvents_full_cycle (events : List String) (eventPos : Int) (fuel : Nat)
    (hn : 1 ≤ events.length) (h0 : 0 ≤ eventPos) (h1 : eventPos < events.length)
    (hf : events.length ≤ fuel) :
    (drawEvents fuel events eventPos).ending = .finished ∧
    (drawEvents fuel events eventPos).count = events.length ∧
    (drawEvents fuel events eventPos).reads =
      (List.range events.length).map (fun k : Nat => (eventPos + (k : Int)) % (events.length : Int)) ∧
    (drawEvents fuel events eventPos).reads.Nodup ∧
    (∀ j : Nat, j < events.length → (j : Int) ∈ (drawEvents fuel events eventPos).reads) ∧
    (drawEvents fuel events eventPos).drawn =
      (List.range events.length).filterMap (drawnAt events eventPos) ∧
    (drawEvents fuel events eventPos).drawn.map Prod.fst =
      ((drawEvents fuel events eventPos).reads.filterMap (fun i => events[i.toNat]?)).filter
        (fun event => event ≠ "") := by
  have hs : slotAt events eventPos 0 = eventPos := by
    unfold slotAt
    simp only [Nat.cast_zero, add_zero]
    exact Int.emod_eq_of_lt h0 h1
  have h := eventLoop_spec events eventPos hn h0 h1 fuel 0 .outOfFuel (by omega) (by omega)
  rw [hs] at h
  have hw : drawEvents fuel events eventPos =
      ⟨(List.range events.length).map (slotAt events eventPos),
        (List.range events.length).filterMap (drawnAt events eventPos), events.length,
        .finished⟩ := h
  rw [hw]
  have hnodup : ((List.range events.length).map (slotAt events eventPos)).Nodup := by
    apply List.Nodup.map_on _ (List.nodup_range _)
    intro a ha b hb hab
    exact slotAt_injective events eventPos a b (List.mem_range.mp ha) (List.mem_range.mp hb) hab
  refine ⟨rfl, rfl, rfl, hnodup, ?_, rfl, ?_⟩
  · intro j hj
    simp only []
    have hpos : (0 : Int) < (events.length : Int) := by omega
    have hk0 := Int.emod_nonneg ((j : Int) - eventPos) (ne_of_gt hpos)
    have hk1 := Int.emod_lt_of_pos ((j : Int) - eventPos) hpos
    refine List.mem_map.mpr ⟨(((j : Int) - eventPos) % (events.length : Int)).toNat,
      List.mem_range.mpr (by omega), ?_⟩
    unfold slotAt
    rw [Int.toNat_of_nonneg hk0, Int.add_emod_emod]
    have e : eventPos + ((j : Int) - eventPos) = (j : Int) := by ring
    rw [e]
    exact Int.emod_eq_of_lt (by omega) (by omega)
  · simp only []
    exact drawn_strings events eventPos (List.range events.length)

/-- C4 at the buffer of the specification's scenario: capacity 3 after receiving
"a", "b", "c", "d" is the buffer "d", "b", "c" with the cursor at 1; the walk reads
the slots 1, 2, 0 and draws "b", "c", "d". An all-empty buffer is walked in full and
nothing is drawn. -/
theorem drawEvents_full_cycle_witness :
    ((drawEvents 3 ["d", "b", "c"] 1).ending = .finished ∧
      (drawEvents 3 ["d", "b", "c"] 1).count = 3 ∧
      (drawEvents 3 ["d", "b", "c"] 1).reads = [1, 2, 0] ∧
      (drawEvents 3 ["d", "b", "c"] 1).drawn = [("b", 0), ("c", 1), ("d", 2)]) ∧
    ((drawEvents 2 ["", ""] 0).ending = .finished ∧
      (drawEvents 2 ["", ""] 0).count = 2 ∧
      (drawEvents 2 ["", ""] 0).drawn = []) :=
  ⟨⟨(drawEvents_full_cycle ["d", "b", "c"] 1 3 (by decide) (by decide) (by decide)
        (by decide)).1,
      (drawEvents_full_cycle ["d", "b", "c"] 1 3 (by decide) (by decide) (by decide)
        (by decide)).2.1,
      by decide, by decide⟩,
    ⟨(drawEvents_full_cycle ["", ""] 0 2 (by decide) (by decide) (by decide) (by decide)).1,
      (drawEvents_full_cycle ["", ""] 0 2 (by decide) (by decide) (by decide) (by decide)).2.1,
      by decide⟩⟩

end World

namespace World

/-! ### Run: the keyboard block -/

/-- C8, the claim as stated fails. With key-down transitions on both Up and Down in one
iteration, the input sent is Down, not Up: the four tests are separate `if`
statements, each overwriting `input.Typ`. -/
theorem handleKeys_up_and_down_sends_down :
    keyDownOnce (fun key => if key = SCANCODE_UP ∨ key = SCANCODE_DOWN then 1 else 0)
      (fun _ => 0) SCANCODE_UP = true ∧
    keyDownOnce (fun key => if key = SCANCODE_UP ∨ key = SCANCODE_DOWN then 1 else 0)
      (fun _ => 0) SCANCODE_DOWN = true ∧
    (handleKeys true (fun key => if key = SCANCODE_UP ∨ key = SCANCODE_DOWN then 1 else 0)
      (fun _ => 0)).sent = [⟨.Down⟩] ∧
    (handleKeys true (fun key => if key = SCANCODE_UP ∨ key = SCANCODE_DOWN then 1 else 0)
      (fun _ => 0)).sent ≠ [⟨.Up⟩] := by
  decide

/-- C8 as amended. In the keyboard block of one iteration of Run with the window
focused, for every current and previous keyboard state, at most one Input is sent;
when one or more of the Up, Down, Left, Right keys has a key-down transition, the
Input sent is the one for the last such key in the order Up, Down, Left, Right; when
none has, no Input is sent. Without the focus nothing is sent. -/
theorem handleKeys_last_key_wins (keyboardState prevKeyboardState : KeyboardState) :
    (handleKeys true keyboardState prevKeyboardState).sent.length ≤ 1 ∧
    (keyDownOnce keyboardState prevKeyboardState SCANCODE_RIGHT = true →
      (handleKeys true keyboardState prevKeyboardState).sent = [⟨.Right⟩]) ∧
    (keyDownOnce keyboardState prevKeyboardState SCANCODE_RIGHT = false →
      keyDownOnce keyboardState prevKeyboardState SCANCODE_LEFT = true →
      (handleKeys true keyboardState prevKeyboardState).sent = [⟨.Left⟩]) ∧
    (keyDownOnce keyboardState prevKeyboardState SCANCODE_RIGHT = false →
      keyDownOnce keyboardState prevKeyboardState SCANCODE_LEFT = false →
      keyDownOnce keyboardState prevKeyboardState SCANCODE_DOWN = true →
      (handleKeys true keyboardState prevKeyboardState).sent = [⟨.Down⟩]) ∧
    (keyDownOnce keyboardState prevKeyboardState SCANCODE_RIGHT = false →
      keyDownOnce keyboardState prevKeyboardState SCANCODE_LEFT = false →
      keyDownOnce keyboardState prevKeyboardState SCANCODE_DOWN = false →
      keyDownOnce keyboardState prevKeyboardState SCANCODE_UP = true →
      (handleKeys true keyboardState prevKeyboardState).sent = [⟨.Up⟩]) ∧
    (keyDownOnce keyboardState prevKeyboardState SCANCODE_RIGHT = false →
      keyDownOnce keyboardState prevKeyboardState SCANCODE_LEFT = false →
      keyDownOnce keyboardState prevKeyboardState SCANCODE_DOWN = false →
      keyDownOnce keyboardState prevKeyboardState SCANCODE_UP = false →
      (handleKeys true keyboardState prevKeyboardState).sent = []) ∧
    (handleKeys false keyboardState prevKeyboardState).sent = [] := by
  unfold handleKeys
  cases hr : keyDownOnce keyboardState prevKeyboardState SCANCODE_RIGHT <;>
  cases hl : keyDownOnce keyboardState prevKeyboardState SCANCODE_LEFT <;>
  cases hd : keyDownOnce keyboardState prevKeyboardState SCANCODE_DOWN <;>
  cases hu : keyDownOnce keyboardState prevKeyboardState SCANCODE_UP <;>
  simp

/-- C8 as amended, at a keyboard state where Up and Right go down together (Right is
sent), and at one where only Up goes down (Up is sent). -/
theorem handleKeys_last_key_wins_witness :
    (handleKeys true (fun key => if key = SCANCODE_UP ∨ key = SCANCODE_RIGHT then 1 else 0)
      (fun _ => 0)).sent = [⟨.Right⟩] ∧
    (handleKeys true (fun key => if key = SCANCODE_UP then 1 else 0) (fun _ => 0)).sent =
      [⟨.Up⟩] :=
  ⟨(handleKeys_last_key_wins
      (fun key => if key = SCANCODE_UP ∨ key = SCANCODE_RIGHT then 1 else 0)
      (fun _ => 0)).2.1 (by decide),
    (handleKeys_last_key_wins (fun key => if key = SCANCODE_UP then 1 else 0)
      (fun _ => 0)).2.2.2.2.1 (by decide) (by decide) (by decide) (by decide)⟩

end World

namespace World

/-! ### Draw: the tile loop -/

theorem drawCell_blank (R : RandSource) (textureIndex : Int → List Rect) (debug : Pos → Bool)
    (offsetX offsetY : Int) (x y : Nat) (tile : Tile) (r : R.State) (h : tile.Rune = Blank) :
    drawCell R textureIndex debug offsetX offsetY x y tile r = ⟨r, none, [], none⟩ := by
  unfold drawCell
  rw [if_neg (by simp [h])]

theorem drawCell_noVariants (R : RandSource) (textureIndex : Int → List Rect)
    (debug : Pos → Bool) (offsetX offsetY : Int) (x y : Nat) (tile : Tile) (r : R.State)
    (h : tile.Rune ≠ Blank) (h0 : (textureIndex tile.Rune).length = 0) :
    drawCell R textureIndex debug offsetX offsetY x y tile r =
      ⟨r, none, [], some .intnArgument⟩ := by
  unfold drawCell
  rw [if_pos h]
  simp only [h0, if_true]

theorem exists_srcRect (R : RandSource) (textureIndex : Int → List Rect) (rune : Int)
    (r : R.State) (h0 : (textureIndex rune).length ≠ 0) :
    ∃ srcRect, (textureIndex rune)[(R.Intn r (textureIndex rune).length).1]? = some srcRect := by
  have hlt := R.Intn_lt r (textureIndex rune).length (Nat.pos_of_ne_zero h0)
  exact ⟨(textureIndex rune).get ⟨_, hlt⟩, List.getElem?_eq_getElem hlt⟩

theorem drawCell_hidden (R : RandSource) (textureIndex : Int → List Rect)
    (debug : Pos → Bool) (offsetX offsetY : Int) (x y : Nat) (tile : Tile) (r : R.State)
    (h : tile.Rune ≠ Blank) (h0 : (textureIndex tile.Rune).length ≠ 0)
    (hv : (tile.Visible || tile.Seen) = false) :
    drawCell R textureIndex debug offsetX offsetY x y tile r =
      ⟨(R.Intn r (textureIndex tile.Rune).length).2,
        some (R.Intn r (textureIndex tile.Rune).length).1, [], none⟩ := by
  obtain ⟨srcRect, hs⟩ := exists_srcRect R textureIndex tile.Rune r h0
  unfold drawCell
  simp only [h, h0, hs, hv, ne_eq, not_false_eq_true, if_true, if_false, Bool.false_eq_true]

theorem drawCell_shown (R : RandSource) (textureIndex : Int → List Rect)
    (debug : Pos → Bool) (offsetX offsetY : Int) (x y : Nat) (tile : Tile) (r : R.State)
    (srcRect : Rect) (h : tile.Rune ≠ Blank) (h0 : (textureIndex tile.Rune).length ≠ 0)
    (hs : (textureIndex tile.Rune)[(R.Intn r (textureIndex tile.Rune).length).1]? =
      some srcRect)
    (hv : (tile.Visible || tile.Seen) = true) (ho : tile.OverlayRune = Blank) :
    drawCell R textureIndex debug offsetX offsetY x y tile r =
      ⟨(R.Intn r (textureIndex tile.Rune).length).2,
        some (R.Intn r (textureIndex tile.Rune).length).1,
        [colorMod (debug ⟨x, y⟩) tile, .copy srcRect (dstRectAt offsetX offsetY x y)],
        none⟩ := by
  unfold drawCell
  simp only [h, h0, hs, hv, ho, ne_eq, not_false_eq_true, not_true_eq_false, if_true, if_false]

theorem drawCell_overlay (R : RandSource) (textureIndex : Int → List Rect)
    (debug : Pos → Bool) (offsetX offsetY : Int) (x y : Nat) (tile : Tile) (r : R.State)
    (srcRect overlayRect : Rect) (h : tile.Rune ≠ Blank)
    (h0 : (textureIndex tile.Rune).length ≠ 0)
    (hs : (textureIndex tile.Rune)[(R.Intn r (textureIndex tile.Rune).length).1]? =
      some srcRect)
    (hv : (tile.Visible || tile.Seen) = true) (ho : tile.OverlayRune ≠ Blank)
    (hov : (textureIndex tile.OverlayRune)[0]? = some overlayRect) :
    drawCell R textureIndex debug offsetX offsetY x y tile r =
      ⟨(R.Intn r (textureIndex tile.Rune).length).2,
        some (R.Intn r (textureIndex tile.Rune).length).1,
        [colorMod (debug ⟨x, y⟩) tile, .copy srcRect (dstRectAt offsetX offsetY x y),
          .copy overlayRect (dstRectAt offsetX offsetY x y)],
        none⟩ := by
  unfold drawCell
  simp only [h, h0, hs, hv, ho, hov, ne_eq, not_false_eq_true, if_true, if_false,
    List.cons_append, List.nil_append]

theorem drawCell_overlay_missing (R : RandSource) (textureIndex : Int → List Rect)
    (debug : Pos → Bool) (offsetX offsetY : Int) (x y : Nat) (tile : Tile) (r : R.State)
    (srcRect : Rect) (h : tile.Rune ≠ Blank)
    (h0 : (textureIndex tile.Rune).length ≠ 0)
    (hs : (textureIndex tile.Rune)[(R.Intn r (textureIndex tile.Rune).length).1]? =
      some srcRect)
    (hv : (tile.Visible || tile.Seen) = true) (ho : tile.OverlayRune ≠ Blank)
    (hov : (textureIndex tile.OverlayRune)[0]? = none) :
    drawCell R textureIndex debug offsetX offsetY x y tile r =
      ⟨(R.Intn r (textureIndex tile.Rune).length).2,
        some (R.Intn r (textureIndex tile.Rune).length).1,
        [colorMod (debug ⟨x, y⟩) tile, .copy srcRect (dstRectAt offsetX offsetY x y)],
        some .indexOutOfRange⟩ := by
  unfold drawCell
  simp only [h, h0, hs, hv, ho, hov, ne_eq, not_false_eq_true, if_true, if_false]

theorem isColorMod_copy (src dst : Rect) : isColorMod (.copy src dst) = false := rfl

theorem isColorMod_colorMod (debug : Bool) (tile : Tile) :
    isColorMod (colorMod debug tile) = true := by
  unfold colorMod
  split
  · rfl
  · split <;> rfl

/-- The colour modulations of one cell whose body does not panic: one, for a non-blank
cell that is Visible or Seen, and none otherwise. -/
theorem drawCell_colorMods (R : RandSource) (textureIndex : Int → List Rect)
    (debug : Pos → Bool) (offsetX offsetY : Int) (x y : Nat) (tile : Tile) (r : R.State)
    (hp : (drawCell R textureIndex debug offsetX offsetY x y tile r).panic = none) :
    (drawCell R textureIndex debug offsetX offsetY x y tile r).calls.filter isColorMod =
      if tile.Rune ≠ Blank ∧ (tile.Visible = true ∨ tile.Seen = true) then
        [colorMod (debug ⟨x, y⟩) tile]
      else [] := by
  by_cases hb : tile.Rune = Blank
  · rw [drawCell_blank R textureIndex debug offsetX offsetY x y tile r hb]
    simp [hb]
  · by_cases h0 : (textureIndex tile.Rune).length = 0
    · rw [drawCell_noVariants R textureIndex debug offsetX offsetY x y tile r hb h0] at hp
      simp at hp
    · obtain ⟨srcRect, hs⟩ := exists_srcRect R textureIndex tile.Rune r h0
      cases hv : (tile.Visible || tile.Seen) with
      | false =>
        rw [drawCell_hidden R textureIndex debug offsetX offsetY x y tile r hb h0 hv]
        have hv2 : ¬ (tile.Visible = true ∨ tile.Seen = true) := by
          intro h
          rw [← Bool.or_eq_true, hv] at h
          exact Bool.false_ne_true h
        rw [if_neg (fun h => hv2 h.2)]
        rfl
      | true =>
        have hv2 : tile.Visible = true ∨ tile.Seen = true := by
          rw [← Bool.or_eq_true]
          exact hv
        rw [if_pos ⟨hb, hv2⟩]
        by_cases ho : tile.OverlayRune = Blank
        · rw [drawCell_shown R textureIndex debug offsetX offsetY x y tile r srcRect hb h0 hs
            hv ho]
          simp only [List.filter_cons, List.filter_nil, isColorMod_colorMod, isColorMod_copy,
              if_true, Bool.false_eq_true, if_false]
        · cases hov : (textureIndex tile.OverlayRune)[0]? with
          | none =>
            rw [drawCell_overlay_missing R textureIndex debug offsetX offsetY x y tile r srcRect
              hb h0 hs hv ho hov] at hp
            simp at hp
          | some o =>
            rw [drawCell_overlay R textureIndex debug offsetX offsetY x y tile r srcRect o
              hb h0 hs hv ho hov]
            simp only [List.filter_cons, List.filter_nil, isColorMod_colorMod, isColorMod_copy,
              if_true, Bool.false_eq_true, if_false]

theorem drawRow_cons_panic (R : RandSource) (textureIndex : Int → List Rect)
    (debug : Pos → Bool) (offsetX offsetY : Int) (y : Nat) (tile : Tile) (rest : List Tile)
    (x : Nat) (r : R.State) (p : DrawPanic)
    (h : (drawCell R textureIndex debug offsetX offsetY x y tile r).panic = some p) :
    drawRow R textureIndex debug offsetX offsetY y (tile :: rest) x r =
      ⟨(drawCell R textureIndex debug offsetX offsetY x y tile r).r,
        (drawCell R textureIndex debug offsetX offsetY x y tile r).calls,
        pickedAt x y (drawCell R textureIndex debug offsetX offsetY x y tile r).pick,
        some p⟩ := by
  rw [drawRow]
  simp only [h]

theorem drawRow_cons_ok (R : RandSource) (textureIndex : Int → List Rect)
    (debug : Pos → Bool) (offsetX offsetY : Int) (y : Nat) (tile : Tile) (rest : List Tile)
    (x : Nat) (r : R.State)
    (h : (drawCell R textureIndex debug offsetX offsetY x y tile r).panic = none) :
    drawRow R textureIndex debug offsetX offsetY y (tile :: rest) x r =
      ⟨(drawRow R textureIndex debug offsetX offsetY y rest (x + 1)
          (drawCell R textureIndex debug offsetX offsetY x y tile r).r).r,
        (drawCell R textureIndex debug offsetX offsetY x y tile r).calls ++
          (drawRow R textureIndex debug offsetX offsetY y rest (x + 1)
            (drawCell R textureIndex debug offsetX offsetY x y tile r).r).calls,
        pickedAt x y (drawCell R textureIndex debug offsetX offsetY x y tile r).pick ++
          (drawRow R textureIndex debug offsetX offsetY y rest (x + 1)
            (drawCell R textureIndex debug offsetX offsetY x y tile r).r).picks,
        (drawRow R textureIndex debug offsetX offsetY y rest (x + 1)
          (drawCell R textureIndex debug offsetX offsetY x y tile r).r).panic⟩ := by
  rw [drawRow]
  simp only [h]

theorem drawRows_cons_panic (R : RandSource) (textureIndex : Int → List Rect)
    (debug : Pos → Bool) (offsetX offsetY : Int) (row : List Tile) (rest : List (List Tile))
    (y : Nat) (r : R.State) (p : DrawPanic)
    (h : (drawRow R textureIndex debug offsetX offsetY y row 0 r).panic = some p) :
    drawRows R textureIndex debug offsetX offsetY (row :: rest) y r =
      ⟨(drawRow R textureIndex debug offsetX offsetY y row 0 r).r,
        (drawRow R textureIndex debug offsetX offsetY y row 0 r).calls,
        (drawRow R textureIndex debug offsetX offsetY y row 0 r).picks, some p⟩ := by
  rw [drawRows]
  simp only [h]

theorem drawRows_cons_ok (R : RandSource) (textureIndex : Int → List Rect)
    (debug : Pos → Bool) (offsetX offsetY : Int) (row : List Tile) (rest : List (List Tile))
    (y : Nat) (r : R.State)
    (h : (drawRow R textureIndex debug offsetX offsetY y row 0 r).panic = none) :
    drawRows R textureIndex debug offsetX offsetY (row :: rest) y r =
      ⟨(drawRows R textureIndex debug offsetX offsetY rest (y + 1)
          (drawRow R textureIndex debug offsetX offsetY y row 0 r).r).r,
        (drawRow R textureIndex debug offsetX offsetY y row 0 r).calls ++
          (drawRows R textureIndex debug offsetX offsetY rest (y + 1)
            (drawRow R textureIndex debug offsetX offsetY y row 0 r).r).calls,
        (drawRow R textureIndex debug offsetX offsetY y row 0 r).picks ++
          (drawRows R textureIndex debug offsetX offsetY rest (y + 1)
            (drawRow R textureIndex debug offsetX offsetY y row 0 r).r).picks,
        (drawRows R textureIndex debug offsetX offsetY rest (y + 1)
          (drawRow R textureIndex debug offsetX offsetY y row 0 r).r).panic⟩ := by
  rw [drawRows]
  simp only [h]

theorem drawRow_colorMods (R : RandSource) (textureIndex : Int → List Rect)
    (debug : Pos → Bool) (offsetX offsetY : Int) (y : Nat) :
    ∀ (row : List Tile) (x : Nat) (r : R.State),
      (drawRow R textureIndex debug offsetX offsetY y row x r).panic = none →
      (drawRow R textureIndex debug offsetX offsetY y row x r).calls.filter isColorMod =
        (rowCells y row x).filterMap (fun c =>
          if c.2.2.Rune ≠ Blank ∧ (c.2.2.Visible = true ∨ c.2.2.Seen = true) then
            some (colorMod (debug ⟨c.1, c.2.1⟩) c.2.2)
          else none) := by
  intro row
  induction row with
  | nil => intro x r _; rfl
  | cons tile rest ih =>
    intro x r hp
    cases hc : (drawCell R textureIndex debug offsetX offsetY x y tile r).panic with
    | some p =>
      rw [drawRow_cons_panic R textureIndex debug offsetX offsetY y tile rest x r p hc] at hp
      simp at hp
    | none =>
      rw [drawRow_cons_ok R textureIndex debug offsetX offsetY y tile rest x r hc] at hp ⊢
      simp only [] at hp ⊢
      rw [List.filter_append, ih _ _ hp,
        drawCell_colorMods R textureIndex debug offsetX offsetY x y tile r hc]
      simp only [rowCells, List.filterMap_cons]
      split <;> rfl

theorem drawRows_colorMods (R : RandSource) (textureIndex : Int → List Rect)
    (debug : Pos → Bool) (offsetX offsetY : Int) :
    ∀ (m : List (List Tile)) (y : Nat) (r : R.State),
      (drawRows R textureIndex debug offsetX offsetY m y r).panic = none →
      (drawRows R textureIndex debug offsetX offsetY m y r).calls.filter isColorMod =
        (mapCells m y).filterMap (fun c =>
          if c.2.2.Rune ≠ Blank ∧ (c.2.2.Visible = true ∨ c.2.2.Seen = true) then
            some (colorMod (debug ⟨c.1, c.2.1⟩) c.2.2)
          else none) := by
  intro m
  induction m with
  | nil => intro y r _; rfl
  | cons row rest ih =>
    intro y r hp
    cases hc : (drawRow R textureIndex debug offsetX offsetY y row 0 r).panic with
    | some p =>
      rw [drawRows_cons_panic R textureIndex debug offsetX offsetY row rest y r p hc] at hp
      simp at hp
    | none =>
      rw [drawRows_cons_ok R textureIndex debug offsetX offsetY row rest y r hc] at hp ⊢
      simp only [] at hp ⊢
      rw [List.filter_append, ih _ _ hp,
        drawRow_colorMods R textureIndex debug offsetX offsetY y row 0 r hc]
      simp only [mapCells, List.filterMap_append]

end World

namespace World

/-! ### Draw: the variants picked by the tile loop -/

theorem variantAt_nil (x y : Nat) : variantAt [] x y = none := rfl

theorem variantAt_cons (p : Pick) (l : List Pick) (x y : Nat) :
    variantAt (p :: l) x y = if p.x = x ∧ p.y = y then some p.index else variantAt l x y := by
  unfold variantAt
  rw [List.find?_cons]
  by_cases h : p.x = x ∧ p.y = y
  · simp only [h, and_self, decide_True, if_true]
  · simp only [h, decide_False, if_false]

theorem variantAt_append_some (a b : List Pick) (x y k : Nat)
    (h : variantAt a x y = some k) : variantAt (a ++ b) x y = some k := by
  induction a with
  | nil => simp [variantAt_nil] at h
  | cons p l ih =>
    rw [List.cons_append, variantAt_cons]
    rw [variantAt_cons] at h
    by_cases hp : p.x = x ∧ p.y = y
    · rw [if_pos hp] at h ⊢
      exact h
    · rw [if_neg hp] at h ⊢
      exact ih h

theorem variantAt_append_none (a b : List Pick) (x y : Nat)
    (h : ∀ p ∈ a, ¬ (p.x = x ∧ p.y = y)) : variantAt (a ++ b) x y = variantAt b x y := by
  induction a with
  | nil => rfl
  | cons p l ih =>
    rw [List.cons_append, variantAt_cons, if_neg (h p (by simp))]
    exact ih (fun q hq => h q (by simp [hq]))

theorem variantAt_none_of_forall (a : List Pick) (x y : Nat)
    (h : ∀ p ∈ a, ¬ (p.x = x ∧ p.y = y)) : variantAt a x y = none := by
  have := variantAt_append_none a [] x y h
  rw [List.append_nil] at this
  rw [this]
  rfl

theorem variantAt_of_isPrefix (a b : List Pick) (x y k : Nat) (hab : a <+: b)
    (h : variantAt a x y = some k) : variantAt b x y = some k := by
  obtain ⟨c, hc⟩ := hab
  rw [← hc]
  exact variantAt_append_some a c x y k h

theorem mem_pickedAt (x y : Nat) (o : Option Nat) (p : Pick) (h : p ∈ pickedAt x y o) :
    p.x = x ∧ p.y = y ∧ o = some p.index := by
  cases o with
  | none => simp [pickedAt] at h
  | some k =>
    simp only [pickedAt, List.mem_singleton] at h
    subst h
    exact ⟨rfl, rfl, rfl⟩

/-- The body of the tile loop and the glyph-only reference agree on the pick and on
the generator; the reference stops exactly on a glyph without variants, where the
body panics. -/
theorem drawCell_pickCell (R : RandSource) (textureIndex : Int → List Rect)
    (debug : Pos → Bool) (offsetX offsetY : Int) (x y : Nat) (tile : Tile) (r : R.State) :
    (drawCell R textureIndex debug offsetX offsetY x y tile r).pick =
      (pickCell R textureIndex tile.Rune r).1 ∧
    (drawCell R textureIndex debug offsetX offsetY x y tile r).r =
      (pickCell R textureIndex tile.Rune r).2.1 ∧
    ((drawCell R textureIndex debug offsetX offsetY x y tile r).panic = none →
      (pickCell R textureIndex tile.Rune r).2.2 = false) := by
  by_cases hb : tile.Rune = Blank
  · rw [drawCell_blank R textureIndex debug offsetX offsetY x y tile r hb]
    simp [pickCell, hb]
  · by_cases h0 : (textureIndex tile.Rune).length = 0
    · rw [drawCell_noVariants R textureIndex debug offsetX offsetY x y tile r hb h0]
      simp [pickCell, hb, h0]
    · obtain ⟨srcRect, hs⟩ := exists_srcRect R textureIndex tile.Rune r h0
      have hpc : pickCell R textureIndex tile.Rune r =
          (some (R.Intn r (textureIndex tile.Rune).length).1,
            (R.Intn r (textureIndex tile.Rune).length).2, false) := by
        unfold pickCell
        rw [if_pos hb, if_neg h0]
      rw [hpc]
      cases hv : (tile.Visible || tile.Seen) with
      | false =>
        rw [drawCell_hidden R textureIndex debug offsetX offsetY x y tile r hb h0 hv]
        exact ⟨rfl, rfl, fun _ => rfl⟩
      | true =>
        by_cases ho : tile.OverlayRune = Blank
        · rw [drawCell_shown R textureIndex debug offsetX offsetY x y tile r srcRect hb h0 hs
            hv ho]
          exact ⟨rfl, rfl, fun _ => rfl⟩
        · cases hov : (textureIndex tile.OverlayRune)[0]? with
          | none =>
            rw [drawCell_overlay_missing R textureIndex debug offsetX offsetY x y tile r srcRect
              hb h0 hs hv ho hov]
            exact ⟨rfl, rfl, fun _ => rfl⟩
          | some o =>
            rw [drawCell_overlay R textureIndex debug offsetX offsetY x y tile r srcRect o
              hb h0 hs hv ho hov]
            exact ⟨rfl, rfl, fun _ => rfl⟩

theorem pickRow_cons_stop (R : RandSource) (textureIndex : Int → List Rect) (y : Nat)
    (rune : Int) (rest : List Int) (x : Nat) (r : R.State)
    (h : (pickCell R textureIndex rune r).2.2 = true) :
    pickRow R textureIndex y (rune :: rest) x r =
      (pickedAt x y (pickCell R textureIndex rune r).1, (pickCell R textureIndex rune r).2.1,
        true) := by
  rw [pickRow]
  simp only [h, if_true]

theorem pickRow_cons_go (R : RandSource) (textureIndex : Int → List Rect) (y : Nat)
    (rune : Int) (rest : List Int) (x : Nat) (r : R.State)
    (h : (pickCell R textureIndex rune r).2.2 = false) :
    pickRow R textureIndex y (rune :: rest) x r =
      (pickedAt x y (pickCell R textureIndex rune r).1 ++
          (pickRow R textureIndex y rest (x + 1) (pickCell R textureIndex rune r).2.1).1,
        (pickRow R textureIndex y rest (x + 1) (pickCell R textureIndex rune r).2.1).2.1,
        (pickRow R textureIndex y rest (x + 1) (pickCell R textureIndex rune r).2.1).2.2) := by
  rw [pickRow]
  simp only [h, Bool.false_eq_true, if_false]

theorem pickRows_cons_stop (R : RandSource) (textureIndex : Int → List Rect)
    (row : List Int) (rest : List (List Int)) (y : Nat) (r : R.State)
    (h : (pickRow R textureIndex y row 0 r).2.2 = true) :
    pickRows R textureIndex (row :: rest) y r =
      ((pickRow R textureIndex y row 0 r).1, (pickRow R textureIndex y row 0 r).2.1, true) := by
  rw [pickRows]
  simp only [h, if_true]

theorem pickRows_cons_go (R : RandSource) (textureIndex : Int → List Rect)
    (row : List Int) (rest : List (List Int)) (y : Nat) (r : R.State)
    (h : (pickRow R textureIndex y row 0 r).2.2 = false) :
    pickRows R textureIndex (row :: rest) y r =
      ((pickRow R textureIndex y row 0 r).1 ++
          (pickRows R textureIndex rest (y + 1) (pickRow R textureIndex y row 0 r).2.1).1,
        (pickRows R textureIndex rest (y + 1) (pickRow R textureIndex y row 0 r).2.1).2.1,
        (pickRows R textureIndex rest (y + 1) (pickRow R textureIndex y row 0 r).2.1).2.2) := by
  rw [pickRows]
  simp only [h, Bool.false_eq_true, if_false]

/-- The picks of one row of the tile loop are an initial part of the reference picks of
its glyphs, and all of them when the row does not panic. -/
theorem drawRow_picks (R : RandSource) (textureIndex : Int → List Rect)
    (debug : Pos → Bool) (offsetX offsetY : Int) (y : Nat) :
    ∀ (row : List Tile) (x : Nat) (r : R.State),
      (drawRow R textureIndex debug offsetX offsetY y row x r).picks <+:
        (pickRow R textureIndex y (row.map (fun t => t.Rune)) x r).1 ∧
      ((drawRow R textureIndex debug offsetX offsetY y row x r).panic = none →
        (drawRow R textureIndex debug offsetX offsetY y row x r).picks =
          (pickRow R textureIndex y (row.map (fun t => t.Rune)) x r).1 ∧
        (drawRow R textureIndex debug offsetX offsetY y row x r).r =
          (pickRow R textureIndex y (row.map (fun t => t.Rune)) x r).2.1 ∧
        (pickRow R textureIndex y (row.map (fun t => t.Rune)) x r).2.2 = false) := by
  intro row
  induction row with
  | nil =>
    intro x r
    exact ⟨List.prefix_refl _, fun _ => ⟨rfl, rfl, rfl⟩⟩
  | cons tile rest ih =>
    intro x r
    obtain ⟨hpick, hr, hstop⟩ :=
      drawCell_pickCell R textureIndex debug offsetX offsetY x y tile r
    rw [List.map_cons]
    cases hc : (drawCell R textureIndex debug offsetX offsetY x y tile r).panic with
    | some p =>
      rw [drawRow_cons_panic R textureIndex debug offsetX offsetY y tile rest x r p hc]
      refine ⟨?_, fun h => by simp at h⟩
      simp only []
      rw [hpick]
      cases hst : (pickCell R textureIndex tile.Rune r).2.2 with
      | true =>
        rw [pickRow_cons_stop R textureIndex y tile.Rune _ x r hst]
      | false =>
        rw [pickRow_cons_go R textureIndex y tile.Rune _ x r hst]
        exact List.prefix_append _ _
    | none =>
      have hst := hstop hc
      rw [drawRow_cons_ok R textureIndex debug offsetX offsetY y tile rest x r hc,
        pickRow_cons_go R textureIndex y tile.Rune _ x r hst]
      simp only []
      rw [hpick, hr]
      have h2 := ih (x + 1) (pickCell R textureIndex tile.Rune r).2.1
      refine ⟨(List.prefix_append_right_inj _).mpr h2.1, ?_⟩
      intro hp
      obtain ⟨e1, e2, e3⟩ := h2.2 hp
      exact ⟨by rw [e1], e2, e3⟩

/-- The picks of the tile loop are an initial part of the reference picks of the grid of
glyphs, and all of them when the loop does not panic. -/
theorem drawRows_picks (R : RandSource) (textureIndex : Int → List Rect)
    (debug : Pos → Bool) (offsetX offsetY : Int) :
    ∀ (m : List (List Tile)) (y : Nat) (r : R.State),
      (drawRows R textureIndex debug offsetX offsetY m y r).picks <+:
        (pickRows R textureIndex (glyphs m) y r).1 ∧
      ((drawRows R textureIndex debug offsetX offsetY m y r).panic = none →
        (drawRows R textureIndex debug offsetX offsetY m y r).picks =
          (pickRows R textureIndex (glyphs m) y r).1 ∧
        (drawRows R textureIndex debug offsetX offsetY m y r).r =
          (pickRows R textureIndex (glyphs m) y r).2.1 ∧
        (pickRows R textureIndex (glyphs m) y r).2.2 = false) := by
  intro m
  induction m with
  | nil =>
    intro y r
    exact ⟨List.prefix_refl _, fun _ => ⟨rfl, rfl, rfl⟩⟩
  | cons row rest ih =>
    intro y r
    obtain ⟨hpre, hok⟩ := drawRow_picks R textureIndex debug offsetX offsetY y row 0 r
    have hg : glyphs (row :: rest) = row.map (fun t => t.Rune) :: glyphs rest := rfl
    rw [hg]
    cases hc : (drawRow R textureIndex debug offsetX offsetY y row 0 r).panic with
    | some p =>
      rw [drawRows_cons_panic R textureIndex debug offsetX offsetY row rest y r p hc]
      refine ⟨?_, fun h => by simp at h⟩
      simp only []
      cases hst : (pickRow R textureIndex y (row.map (fun t => t.Rune)) 0 r).2.2 with
      | true =>
        rw [pickRows_cons_stop R textureIndex _ _ y r hst]
        exact hpre
      | false =>
        rw [pickRows_cons_go R textureIndex _ _ y r hst]
        exact List.IsPrefix.trans hpre (List.prefix_append _ _)
    | none =>
      obtain ⟨e1, e2, e3⟩ := hok hc
      rw [drawRows_cons_ok R textureIndex debug offsetX offsetY row rest y r hc,
        pickRows_cons_go R textureIndex _ _ y r e3]
      simp only []
      rw [e1, e2]
      have h2 := ih (y + 1) (pickRow R textureIndex y (row.map (fun t => t.Rune)) 0 r).2.1
      refine ⟨(List.prefix_append_right_inj _).mpr h2.1, ?_⟩
      intro hp
      obtain ⟨f1, f2, f3⟩ := h2.2 hp
      exact ⟨by rw [f1], f2, f3⟩

theorem pickCell_index_lt (R : RandSource) (textureIndex : Int → List Rect) (rune : Int)
    (r : R.State) (k : Nat) (h : (pickCell R textureIndex rune r).1 = some k) :
    k < (textureIndex rune).length := by
  unfold pickCell at h
  by_cases hb : rune ≠ Blank
  · rw [if_pos hb] at h
    by_cases h0 : (textureIndex rune).length = 0
    · rw [if_pos h0] at h
      simp at h
    · rw [if_neg h0] at h
      simp only [Option.some.injEq] at h
      rw [← h]
      exact R.Intn_lt r _ (Nat.pos_of_ne_zero h0)
  · rw [if_neg hb] at h
    simp at h

theorem pickCell_some_of_go (R : RandSource) (textureIndex : Int → List Rect) (rune : Int)
    (r : R.State) (hb : rune ≠ Blank) (h : (pickCell R textureIndex rune r).2.2 = false) :
    ∃ k, (pickCell R textureIndex rune r).1 = some k := by
  unfold pickCell at h ⊢
  rw [if_pos hb] at h ⊢
  by_cases h0 : (textureIndex rune).length = 0
  · rw [if_pos h0] at h
    simp at h
  · rw [if_neg h0]
    exact ⟨_, rfl⟩

/-- Every reference pick of a row is in that row, at a column from `x` on. -/
theorem pickRow_positions (R : RandSource) (textureIndex : Int → List Rect) (y : Nat) :
    ∀ (row : List Int) (x : Nat) (r : R.State),
      ∀ p ∈ (pickRow R textureIndex y row x r).1, p.y = y ∧ x ≤ p.x := by
  intro row
  induction row with
  | nil => intro x r p hp; simp [pickRow] at hp
  | cons rune rest ih =>
    intro x r p hp
    cases hst : (pickCell R textureIndex rune r).2.2 with
    | true =>
      rw [pickRow_cons_stop R textureIndex y rune rest x r hst] at hp
      have := mem_pickedAt x y _ p hp
      omega
    | false =>
      rw [pickRow_cons_go R textureIndex y rune rest x r hst] at hp
      rcases List.mem_append.mp hp with h | h
      · have := mem_pickedAt x y _ p h
        omega
      · have := ih (x + 1) _ p h
        omega

/-- Every reference pick of a grid is in a row from `y` on. -/
theorem pickRows_positions (R : RandSource) (textureIndex : Int → List Rect) :
    ∀ (g : List (List Int)) (y : Nat) (r : R.State),
      ∀ p ∈ (pickRows R textureIndex g y r).1, y ≤ p.y := by
  intro g
  induction g with
  | nil => intro y r p hp; simp [pickRows] at hp
  | cons row rest ih =>
    intro y r p hp
    cases hst : (pickRow R textureIndex y row 0 r).2.2 with
    | true =>
      rw [pickRows_cons_stop R textureIndex row rest y r hst] at hp
      have := pickRow_positions R textureIndex y row 0 r p hp
      omega
    | false =>
      rw [pickRows_cons_go R textureIndex row rest y r hst] at hp
      rcases List.mem_append.mp hp with h | h
      · have := pickRow_positions R textureIndex y row 0 r p h
        omega
      · have := ih (y + 1) _ p h
        omega

theorem variantAt_pickedAt_append (x y : Nat) (o : Option Nat) (l : List Pick)
    (hl : ∀ p ∈ l, ¬ (p.x = x ∧ p.y = y)) : variantAt (pickedAt x y o ++ l) x y = o := by
  cases o with
  | none =>
    simp only [pickedAt, List.nil_append]
    exact variantAt_none_of_forall l x y hl
  | some k =>
    simp only [pickedAt, List.cons_append, List.nil_append]
    rw [variantAt_cons, if_pos ⟨rfl, rfl⟩]

/-- Two rows of glyphs that agree up to column `x` give the cell at column `x` the same
reference pick, whatever follows it. -/
theorem pickRow_agree (R : RandSource) (textureIndex : Int → List Rect) (x y : Nat) :
    ∀ (row1 row2 : List Int) (x0 : Nat) (r : R.State), x0 ≤ x →
      (∀ j, x0 + j ≤ x → row1[j]? = row2[j]?) →
      variantAt (pickRow R textureIndex y row1 x0 r).1 x y =
        variantAt (pickRow R textureIndex y row2 x0 r).1 x y := by
  intro row1
  induction row1 with
  | nil =>
    intro row2 x0 r hx h
    have h0 := h 0 (by omega)
    cases row2 with
    | nil => rfl
    | cons a t => simp at h0
  | cons a t1 ih =>
    intro row2 x0 r hx h
    have h0 := h 0 (by omega)
    cases row2 with
    | nil => simp at h0
    | cons b t2 =>
      simp only [List.getElem?_cons_zero, Option.some.injEq] at h0
      subst h0
      have key : ∀ (t : List Int), variantAt (pickRow R textureIndex y (a :: t) x0 r).1 x y =
          if x0 = x then (pickCell R textureIndex a r).1
          else if (pickCell R textureIndex a r).2.2 = true then none
          else variantAt
            (pickRow R textureIndex y t (x0 + 1) (pickCell R textureIndex a r).2.1).1 x y := by
        intro t
        by_cases hst : (pickCell R textureIndex a r).2.2 = true
        · rw [pickRow_cons_stop R textureIndex y a t x0 r hst]
          simp only []
          by_cases hx0 : x0 = x
          · subst hx0
            rw [if_pos rfl]
            have := variantAt_pickedAt_append x0 y (pickCell R textureIndex a r).1 []
              (fun p hp => by simp at hp)
            rw [List.append_nil] at this
            exact this
          · rw [if_neg hx0, if_pos hst]
            apply variantAt_none_of_forall
            intro p hp
            have := mem_pickedAt x0 y _ p hp
            omega
        · have hst2 : (pickCell R textureIndex a r).2.2 = false := (Bool.not_eq_true _).mp hst
          rw [pickRow_cons_go R textureIndex y a t x0 r hst2]
          simp only []
          by_cases hx0 : x0 = x
          · subst hx0
            rw [if_pos rfl]
            apply variantAt_pickedAt_append
            intro p hp
            have := pickRow_positions R textureIndex y t (x0 + 1) _ p hp
            omega
          · rw [if_neg hx0, if_neg hst]
            apply variantAt_append_none
            intro p hp
            have := mem_pickedAt x0 y _ p hp
            omega
      rw [key t1, key t2]
      by_cases hx0 : x0 = x
      · rw [if_pos hx0, if_pos hx0]
      · rw [if_neg hx0, if_neg hx0]
        by_cases hst : (pickCell R textureIndex a r).2.2 = true
        · rw [if_pos hst, if_pos hst]
        · rw [if_neg hst, if_neg hst]
          apply ih t2 (x0 + 1) _ (by omega)
          intro j hj
          have := h (j + 1) (by omega)
          simpa using this

/-- Two grids of glyphs of the same dimensions that agree on every cell up to the one
at column `x` of row `y0 + j`, in row-major order, give that cell the same reference
pick. -/
theorem pickRows_agree (R : RandSource) (textureIndex : Int → List Rect) (x : Nat) :
    ∀ (g1 g2 : List (List Int)) (j y0 : Nat) (r : R.State),
      g1.map List.length = g2.map List.length →
      (∀ i c, (i < j ∨ (i = j ∧ c ≤ x)) → glyphAt g1 i c = glyphAt g2 i c) →
      variantAt (pickRows R textureIndex g1 y0 r).1 x (y0 + j) =
        variantAt (pickRows R textureIndex g2 y0 r).1 x (y0 + j) := by
  intro g1
  induction g1 with
  | nil =>
    intro g2 j y0 r hdim _
    cases g2 with
    | nil => rfl
    | cons b t => simp at hdim
  | cons row1 t1 ih =>
    intro g2 j y0 r hdim h
    cases g2 with
    | nil => simp at hdim
    | cons row2 t2 =>
      simp only [List.map_cons, List.cons.injEq] at hdim
      obtain ⟨hlen, hdim2⟩ := hdim
      cases j with
      | zero =>
        have hrow : variantAt (pickRow R textureIndex y0 row1 0 r).1 x y0 =
            variantAt (pickRow R textureIndex y0 row2 0 r).1 x y0 := by
          apply pickRow_agree R textureIndex x y0 row1 row2 0 r (by omega)
          intro c hc
          have := h 0 c (Or.inr ⟨rfl, by omega⟩)
          simpa [glyphAt] using this
        have key : ∀ (row : List Int) (t : List (List Int)),
            variantAt (pickRows R textureIndex (row :: t) y0 r).1 x y0 =
              variantAt (pickRow R textureIndex y0 row 0 r).1 x y0 := by
          intro row t
          cases hst : (pickRow R textureIndex y0 row 0 r).2.2 with
          | true => rw [pickRows_cons_stop R textureIndex row t y0 r hst]
          | false =>
            rw [pickRows_cons_go R textureIndex row t y0 r hst]
            simp only []
            cases hv : variantAt (pickRow R textureIndex y0 row 0 r).1 x y0 with
            | some k => exact variantAt_append_some _ _ x y0 k hv
            | none =>
              have hrest : ∀ p ∈ (pickRows R textureIndex t (y0 + 1)
                  (pickRow R textureIndex y0 row 0 r).2.1).1, ¬ (p.x = x ∧ p.y = y0) := by
                intro p hp
                have := pickRows_positions R textureIndex t (y0 + 1) _ p hp
                omega
              have hnone := variantAt_none_of_forall _ x y0 hrest
              generalize (pickRow R textureIndex y0 row 0 r).1 = a at hv ⊢
              generalize (pickRows R textureIndex t (y0 + 1)
                (pickRow R textureIndex y0 row 0 r).2.1).1 = b at hnone ⊢
              clear hrest
              induction a with
              | nil => simpa using hnone
              | cons q l ihl =>
                rw [variantAt_cons] at hv
                rw [List.cons_append, variantAt_cons]
                by_cases hq : q.x = x ∧ q.y = y0
                · rw [if_pos hq] at hv
                  simp at hv
                · rw [if_neg hq] at hv ⊢
                  exact ihl hv
        rw [Nat.add_zero, key row1 t1, key row2 t2]
        exact hrow
      | succ j =>
        have hrows : row1 = row2 := by
          apply List.ext_getElem?
          intro c
          have := h 0 c (Or.inl (by omega))
          simpa [glyphAt] using this
        subst hrows
        have hy : ∀ p ∈ (pickRow R textureIndex y0 row1 0 r).1,
            ¬ (p.x = x ∧ p.y = y0 + (j + 1)) := by
          intro p hp
          have := pickRow_positions R textureIndex y0 row1 0 r p hp
          omega
        cases hst : (pickRow R textureIndex y0 row1 0 r).2.2 with
        | true =>
          rw [pickRows_cons_stop R textureIndex row1 t1 y0 r hst,
            pickRows_cons_stop R textureIndex row1 t2 y0 r hst]
        | false =>
          rw [pickRows_cons_go R textureIndex row1 t1 y0 r hst,
            pickRows_cons_go R textureIndex row1 t2 y0 r hst]
          simp only []
          rw [variantAt_append_none _ _ x _ hy, variantAt_append_none _ _ x _ hy]
          have e : y0 + (j + 1) = (y0 + 1) + j := by omega
          rw [e]
          apply ih t2 j (y0 + 1) _ hdim2
          intro i c hic
          have := h (i + 1) c (by omega)
          simpa [glyphAt] using this

/-- In a row that the reference does not stop in, every non-blank glyph has a pick, an
index into its variants. -/
theorem pickRow_cover (R : RandSource) (textureIndex : Int → List Rect) (y : Nat) :
    ∀ (row : List Int) (x0 : Nat) (r : R.State),
      (pickRow R textureIndex y row x0 r).2.2 = false →
      ∀ (j : Nat) (g : Int), row[j]? = some g → g ≠ Blank →
        ∃ k, variantAt (pickRow R textureIndex y row x0 r).1 (x0 + j) y = some k ∧
          k < (textureIndex g).length := by
  intro row
  induction row with
  | nil => intro x0 r _ j g hj; simp at hj
  | cons a t ih =>
    intro x0 r hstop j g hj hg
    by_cases hst : (pickCell R textureIndex a r).2.2 = true
    · rw [pickRow_cons_stop R textureIndex y a t x0 r hst] at hstop
      simp at hstop
    · have hst2 : (pickCell R textureIndex a r).2.2 = false := (Bool.not_eq_true _).mp hst
      rw [pickRow_cons_go R textureIndex y a t x0 r hst2] at hstop ⊢
      simp only [] at hstop ⊢
      cases j with
      | zero =>
        simp only [List.getElem?_cons_zero, Option.some.injEq] at hj
        subst hj
        obtain ⟨k, hk⟩ := pickCell_some_of_go R textureIndex a r hg hst2
        refine ⟨k, ?_, pickCell_index_lt R textureIndex a r k hk⟩
        have hpos : ∀ p ∈ (pickRow R textureIndex y t (x0 + 1)
            (pickCell R textureIndex a r).2.1).1, ¬ (p.x = x0 ∧ p.y = y) := by
          intro p hp
          have := pickRow_positions R textureIndex y t (x0 + 1) _ p hp
          omega
        have e0 : x0 + 0 = x0 := rfl
        rw [e0, variantAt_pickedAt_append x0 y _ _ hpos]
        exact hk
      | succ j =>
        simp only [List.getElem?_cons_succ] at hj
        obtain ⟨k, hk, hlt⟩ := ih (x0 + 1) _ hstop j g hj hg
        refine ⟨k, ?_, hlt⟩
        have hpos : ∀ p ∈ pickedAt x0 y (pickCell R textureIndex a r).1,
            ¬ (p.x = x0 + (j + 1) ∧ p.y = y) := by
          intro p hp
          have := mem_pickedAt x0 y _ p hp
          omega
        rw [variantAt_append_none _ _ _ _ hpos]
        have e : x0 + (j + 1) = x0 + 1 + j := by omega
        rw [e]
        exact hk

/-- In a grid that the reference does not stop in, every non-blank glyph has a pick, an
index into its variants. -/
theorem pickRows_cover (R : RandSource) (textureIndex : Int → List Rect) :
    ∀ (grid : List (List Int)) (y0 : Nat) (r : R.State),
      (pickRows R textureIndex grid y0 r).2.2 = false →
      ∀ (i j : Nat) (g : Int), glyphAt grid i j = some g → g ≠ Blank →
        ∃ k, variantAt (pickRows R textureIndex grid y0 r).1 j (y0 + i) = some k ∧
          k < (textureIndex g).length := by
  intro grid
  induction grid with
  | nil => intro y0 r _ i j g hj; simp [glyphAt] at hj
  | cons row t ih =>
    intro y0 r hstop i j g hj hg
    by_cases hst : (pickRow R textureIndex y0 row 0 r).2.2 = true
    · rw [pickRows_cons_stop R textureIndex row t y0 r hst] at hstop
      simp at hstop
    · have hst2 : (pickRow R textureIndex y0 row 0 r).2.2 = false := (Bool.not_eq_true _).mp hst
      rw [pickRows_cons_go R textureIndex row t y0 r hst2] at hstop ⊢
      simp only [] at hstop ⊢
      cases i with
      | zero =>
        have hj2 : row[j]? = some g := by simpa [glyphAt] using hj
        obtain ⟨k, hk, hlt⟩ := pickRow_cover R textureIndex y0 row 0 r hst2 j g hj2 hg
        rw [Nat.zero_add] at hk
        exact ⟨k, variantAt_append_some _ _ _ _ k hk, hlt⟩
      | succ i =>
        have hj2 : glyphAt t i j = some g := by simpa [glyphAt] using hj
        obtain ⟨k, hk, hlt⟩ := ih (y0 + 1) _ hstop i j g hj2 hg
        refine ⟨k, ?_, hlt⟩
        have hpos : ∀ p ∈ (pickRow R textureIndex y0 row 0 r).1,
            ¬ (p.x = j ∧ p.y = y0 + (i + 1)) := by
          intro p hp
          have := pickRow_positions R textureIndex y0 row 0 r p hp
          omega
        rw [variantAt_append_none _ _ _ _ hpos]
        have e : y0 + (i + 1) = y0 + 1 + i := by omega
        rw [e]
        exact hk

theorem drawMap_tiles (R : RandSource) (ui : UI R) (level : Level) :
    ∃ offsetX offsetY, (drawMap R ui level).tiles =
      drawRows R ui.textureIndex level.Debug offsetX offsetY level.Map 0 (R.Seed 1) :=
  ⟨_, _, rfl⟩

theorem glyphs_dims (m : List (List Tile)) :
    (glyphs m).map List.length = m.map List.length := by
  simp [glyphs, Function.comp]

/-- C3. For two calls of Draw with the same texture index on levels whose maps have the
same dimensions and the same Rune in every cell, whatever the centre and the
generator state of the ui (the calls made before) and whatever the Visible and Seen
flags, overlays, debug map and player of the levels: a cell that gets a variant
index in both calls gets the same one; and when neither tile loop panics, the two
calls pick the same variants throughout, one for every non-blank cell, an index
into the variants of the cell's glyph. -/
theorem drawMap_variants_reproducible (R : RandSource) (ui1 ui2 : UI R)
    (level1 level2 : Level) (hti : ui1.textureIndex = ui2.textureIndex)
    (hg : glyphs level1.Map = glyphs level2.Map) :
    (∀ x y k1 k2, variantAt (drawMap R ui1 level1).tiles.picks x y = some k1 →
      variantAt (drawMap R ui2 level2).tiles.picks x y = some k2 → k1 = k2) ∧
    ((drawMap R ui1 level1).tiles.panic = none → (drawMap R ui2 level2).tiles.panic = none →
      (drawMap R ui1 level1).tiles.picks = (drawMap R ui2 level2).tiles.picks ∧
      ∀ x y g, glyphAt (glyphs level1.Map) y x = some g → g ≠ Blank →
        ∃ k, variantAt (drawMap R ui1 level1).tiles.picks x y = some k ∧
          variantAt (drawMap R ui2 level2).tiles.picks x y = some k ∧
          k < (ui1.textureIndex g).length) := by
  obtain ⟨ox1, oy1, h1⟩ := drawMap_tiles R ui1 level1
  obtain ⟨ox2, oy2, h2⟩ := drawMap_tiles R ui2 level2
  rw [h1, h2, ← hti]
  have p1 := drawRows_picks R ui1.textureIndex level1.Debug ox1 oy1 level1.Map 0 (R.Seed 1)
  have p2 := drawRows_picks R ui1.textureIndex level2.Debug ox2 oy2 level2.Map 0 (R.Seed 1)
  rw [← hg] at p2
  constructor
  · intro x y k1 k2 hk1 hk2
    have e1 := variantAt_of_isPrefix _ _ x y k1 p1.1 hk1
    have e2 := variantAt_of_isPrefix _ _ x y k2 p2.1 hk2
    rw [e1] at e2
    exact Option.some.inj e2
  · intro hp1 hp2
    obtain ⟨a1, _, a3⟩ := p1.2 hp1
    obtain ⟨b1, _, _⟩ := p2.2 hp2
    refine ⟨a1.trans b1.symm, ?_⟩
    intro x y g hgl hne
    obtain ⟨k, hk, hlt⟩ := pickRows_cover R ui1.textureIndex (glyphs level1.Map) 0 (R.Seed 1)
      a3 y x g hgl hne
    rw [Nat.zero_add] at hk
    exact ⟨k, by rw [a1]; exact hk, by rw [b1]; exact hk, hlt⟩

/-- C3 at a fresh ui and a ui with another window, centre and generator state, on two
levels with the glyphs '.', Blank, '.' whose cells differ in their flags and
overlay: both calls pick variant 2 for the first cell and variant 0 for the third. -/
theorem drawMap_variants_reproducible_witness :
    (drawMap sampleSource sampleUI
        (sampleLevel [[⟨46, 0, true, true⟩, ⟨0, 0, false, false⟩, ⟨46, 0, true, true⟩]])
      ).tiles.picks = [⟨0, 0, 2⟩, ⟨2, 0, 0⟩] ∧
    (drawMap sampleSource sampleUI
        (sampleLevel [[⟨46, 0, true, true⟩, ⟨0, 0, false, false⟩, ⟨46, 0, true, true⟩]])
      ).tiles.picks =
      (drawMap sampleSource (⟨800, 600, sampleIndex, 7, 3, (42 : Nat)⟩ : UI sampleSource)
        (sampleLevel [[⟨46, 124, false, true⟩, ⟨0, 0, true, true⟩, ⟨46, 0, false, false⟩]])
      ).tiles.picks :=
  ⟨by decide,
    ((drawMap_variants_reproducible sampleSource sampleUI
      (⟨800, 600, sampleIndex, 7, 3, (42 : Nat)⟩ : UI sampleSource)
      (sampleLevel [[⟨46, 0, true, true⟩, ⟨0, 0, false, false⟩, ⟨46, 0, true, true⟩]])
      (sampleLevel [[⟨46, 124, false, true⟩, ⟨0, 0, true, true⟩, ⟨46, 0, false, false⟩]])
      rfl (by decide)).2 (by decide) (by decide)).1⟩

/-- C7, the claim as stated fails. Two levels of one row and two columns hold the glyph
'.' at column 1; the cell at column 0 is Blank in the first and '.' in the second.
With three variants for '.', Draw picks variant 2 for the cell at column 1 in the
first level and variant 0 in the second: the generator is consumed once by every
non-blank cell before it. -/
theorem variant_depends_on_other_cells :
    glyphAt (glyphs (sampleLevel [[⟨0, 0, true, true⟩, ⟨46, 0, true, true⟩]]).Map) 0 1 =
      glyphAt (glyphs (sampleLevel [[⟨46, 0, true, true⟩, ⟨46, 0, true, true⟩]]).Map) 0 1 ∧
    (sampleLevel [[⟨0, 0, true, true⟩, ⟨46, 0, true, true⟩]]).Map.map List.length =
      (sampleLevel [[⟨46, 0, true, true⟩, ⟨46, 0, true, true⟩]]).Map.map List.length ∧
    variantAt (drawMap sampleSource sampleUI
      (sampleLevel [[⟨0, 0, true, true⟩, ⟨46, 0, true, true⟩]])).tiles.picks 1 0 = some 2 ∧
    variantAt (drawMap sampleSource sampleUI
      (sampleLevel [[⟨46, 0, true, true⟩, ⟨46, 0, true, true⟩]])).tiles.picks 1 0 = some 0 := by
  decide

/-- C7 as amended. For two calls of Draw with the same texture index on levels of the
same dimensions that hold the same Rune at the cell at column `x` of row `y` and at
every cell before it in row-major order: if both calls pick a variant for that cell,
they pick the same; and when neither tile loop panics, both pick the same variant
or both none (a Blank cell), whatever the glyphs of the cells after it. -/
theorem variant_depends_on_preceding_cells (R : RandSource) (ui1 ui2 : UI R)
    (level1 level2 : Level) (x y : Nat) (hti : ui1.textureIndex = ui2.textureIndex)
    (hdim : level1.Map.map List.length = level2.Map.map List.length)
    (hpre : ∀ i c, (i < y ∨ (i = y ∧ c ≤ x)) →
      glyphAt (glyphs level1.Map) i c = glyphAt (glyphs level2.Map) i c) :
    (∀ k1 k2, variantAt (drawMap R ui1 level1).tiles.picks x y = some k1 →
      variantAt (drawMap R ui2 level2).tiles.picks x y = some k2 → k1 = k2) ∧
    ((drawMap R ui1 level1).tiles.panic = none → (drawMap R ui2 level2).tiles.panic = none →
      variantAt (drawMap R ui1 level1).tiles.picks x y =
        variantAt (drawMap R ui2 level2).tiles.picks x y) := by
  obtain ⟨ox1, oy1, h1⟩ := drawMap_tiles R ui1 level1
  obtain ⟨ox2, oy2, h2⟩ := drawMap_tiles R ui2 level2
  rw [h1, h2, ← hti]
  have p1 := drawRows_picks R ui1.textureIndex level1.Debug ox1 oy1 level1.Map 0 (R.Seed 1)
  have p2 := drawRows_picks R ui1.textureIndex level2.Debug ox2 oy2 level2.Map 0 (R.Seed 1)
  have hagree := pickRows_agree R ui1.textureIndex x (glyphs level1.Map) (glyphs level2.Map)
    y 0 (R.Seed 1) (by rw [glyphs_dims, glyphs_dims, hdim]) hpre
  rw [Nat.zero_add] at hagree
  constructor
  · intro k1 k2 hk1 hk2
    have e1 := variantAt_of_isPrefix _ _ x y k1 p1.1 hk1
    have e2 := variantAt_of_isPrefix _ _ x y k2 p2.1 hk2
    rw [hagree, e2] at e1
    exact (Option.some.inj e1).symm
  · intro hp1 hp2
    obtain ⟨a1, _, _⟩ := p1.2 hp1
    obtain ⟨b1, _, _⟩ := p2.2 hp2
    rw [a1, b1]
    exact hagree

/-- C7 as amended, at two levels of one row that agree on columns 0 and 1 and differ at
column 2: Draw picks variant 0 for the cell at column 1 in both. -/
theorem variant_depends_on_preceding_cells_witness :
    variantAt (drawMap sampleSource sampleUI (sampleLevel
      [[⟨46, 0, true, true⟩, ⟨46, 0, true, true⟩, ⟨0, 0, true, true⟩]])).tiles.picks 1 0 =
      some 0 ∧
    variantAt (drawMap sampleSource sampleUI (sampleLevel
      [[⟨46, 0, true, true⟩, ⟨46, 0, true, true⟩, ⟨0, 0, true, true⟩]])).tiles.picks 1 0 =
    variantAt (drawMap sampleSource sampleUI (sampleLevel
      [[⟨46, 0, true, true⟩, ⟨46, 0, true, true⟩, ⟨46, 0, true, true⟩]])).tiles.picks 1 0 :=
  ⟨by decide,
    (variant_depends_on_preceding_cells sampleSource sampleUI sampleUI
      (sampleLevel [[⟨46, 0, true, true⟩, ⟨46, 0, true, true⟩, ⟨0, 0, true, true⟩]])
      (sampleLevel [[⟨46, 0, true, true⟩, ⟨46, 0, true, true⟩, ⟨46, 0, true, true⟩]])
      1 0 rfl (by decide) (by
        intro i c h
        have hi : i = 0 := by omega
        subst hi
        have hc : c = 0 ∨ c = 1 := by omega
        rcases hc with hc | hc <;> subst hc <;> decide)).2 (by decide) (by decide)⟩

end World

namespace World

/-! ### Draw: the calls of the tile loop -/

theorem colorMod_eq (d : Bool) (tile : Tile) : colorMod d tile =
    (if d = true then RenderCall.setColorMod 128 0 0
      else if tile.Seen = true ∧ tile.Visible = false then RenderCall.setColorMod 128 128 128
      else RenderCall.setColorMod 255 255 255) := by
  unfold colorMod
  cases d <;> cases tile.Seen <;> cases tile.Visible <;> rfl

theorem variantAt_append_right (a b : List Pick) (x y : Nat)
    (h : ∀ p ∈ b, ¬ (p.x = x ∧ p.y = y)) : variantAt (a ++ b) x y = variantAt a x y := by
  induction a with
  | nil => exact variantAt_none_of_forall b x y h
  | cons q l ih =>
    rw [List.cons_append, variantAt_cons, variantAt_cons, ih]

theorem cellCalls_congr (textureIndex : Int → List Rect) (debug : Pos → Bool)
    (offsetX offsetY : Int) (p1 p2 : List Pick) (c : Nat × Nat × Tile)
    (h : variantAt p1 c.1 c.2.1 = variantAt p2 c.1 c.2.1) :
    cellCalls textureIndex debug offsetX offsetY p1 c =
      cellCalls textureIndex debug offsetX offsetY p2 c := by
  unfold cellCalls
  rw [h]

theorem flatMap_congr_mem {α β : Type} (l : List α) (f g : α → List β)
    (h : ∀ c ∈ l, f c = g c) : l.flatMap f = l.flatMap g := by
  induction l with
  | nil => rfl
  | cons a t ih =>
    rw [List.flatMap_cons, List.flatMap_cons, h a (by simp),
      ih (fun c hc => h c (by simp [hc]))]

theorem mem_rowCells (y : Nat) : ∀ (row : List Tile) (x0 : Nat) (c : Nat × Nat × Tile),
    c ∈ rowCells y row x0 → c.2.1 = y ∧ x0 ≤ c.1 := by
  intro row
  induction row with
  | nil => intro x0 c hc; simp [rowCells] at hc
  | cons tile rest ih =>
    intro x0 c hc
    simp only [rowCells, List.mem_cons] at hc
    rcases hc with h | h
    · subst h
      exact ⟨rfl, Nat.le_refl _⟩
    · have := ih (x0 + 1) c h
      omega

theorem mem_mapCells : ∀ (m : List (List Tile)) (y0 : Nat) (c : Nat × Nat × Tile),
    c ∈ mapCells m y0 → y0 ≤ c.2.1 := by
  intro m
  induction m with
  | nil => intro y0 c hc; simp [mapCells] at hc
  | cons row rest ih =>
    intro y0 c hc
    simp only [mapCells, List.mem_append] at hc
    rcases hc with h | h
    · have := mem_rowCells y0 row 0 c h
      omega
    · have := ih (y0 + 1) c h
      omega

/-- The calls of the body of the tile loop for a cell it does not panic on are the
calls expected for the cell, given its pick. -/
theorem drawCell_calls (R : RandSource) (textureIndex : Int → List Rect)
    (debug : Pos → Bool) (offsetX offsetY : Int) (x y : Nat) (tile : Tile) (r : R.State)
    (picks : List Pick)
    (hp : (drawCell R textureIndex debug offsetX offsetY x y tile r).panic = none)
    (hv : variantAt picks x y = (drawCell R textureIndex debug offsetX offsetY x y tile r).pick) :
    (drawCell R textureIndex debug offsetX offsetY x y tile r).calls =
      cellCalls textureIndex debug offsetX offsetY picks (x, y, tile) := by
  unfold cellCalls
  simp only []
  by_cases hb : tile.Rune = Blank
  · rw [drawCell_blank R textureIndex debug offsetX offsetY x y tile r hb]
    rw [if_neg (fun h => h.1 hb)]
  · by_cases h0 : (textureIndex tile.Rune).length = 0
    · rw [drawCell_noVariants R textureIndex debug offsetX offsetY x y tile r hb h0] at hp
      simp at hp
    · obtain ⟨srcRect, hs⟩ := exists_srcRect R textureIndex tile.Rune r h0
      cases hvis : (tile.Visible || tile.Seen) with
      | false =>
        rw [drawCell_hidden R textureIndex debug offsetX offsetY x y tile r hb h0 hvis]
        have hv2 : ¬ (tile.Visible = true ∨ tile.Seen = true) := by
          intro h
          rw [← Bool.or_eq_true, hvis] at h
          exact Bool.false_ne_true h
        rw [if_neg (fun h => hv2 h.2)]
      | true =>
        have hv2 : tile.Visible = true ∨ tile.Seen = true := by
          rw [← Bool.or_eq_true]
          exact hvis
        rw [if_pos ⟨hb, hv2⟩]
        by_cases ho : tile.OverlayRune = Blank
        · rw [drawCell_shown R textureIndex debug offsetX offsetY x y tile r srcRect hb h0 hs
            hvis ho] at hv ⊢
          simp only [] at hv ⊢
          rw [hv]
          simp only [hs, colorMod_eq, ho, ne_eq, not_true_eq_false, if_false, List.append_nil]
        · cases hov : (textureIndex tile.OverlayRune)[0]? with
          | none =>
            rw [drawCell_overlay_missing R textureIndex debug offsetX offsetY x y tile r srcRect
              hb h0 hs hvis ho hov] at hp
            simp at hp
          | some o =>
            rw [drawCell_overlay R textureIndex debug offsetX offsetY x y tile r srcRect o
              hb h0 hs hvis ho hov] at hv ⊢
            simp only [] at hv ⊢
            rw [hv]
            simp only [hs, colorMod_eq, ho, ne_eq, not_false_eq_true, if_true,
              List.cons_append, List.nil_append]

theorem drawRow_positions (R : RandSource) (textureIndex : Int → List Rect)
    (debug : Pos → Bool) (offsetX offsetY : Int) (y : Nat) (row : List Tile) (x : Nat)
    (r : R.State) :
    ∀ p ∈ (drawRow R textureIndex debug offsetX offsetY y row x r).picks, p.y = y ∧ x ≤ p.x := by
  intro p hp
  have h := (drawRow_picks R textureIndex debug offsetX offsetY y row x r).1
  exact pickRow_positions R textureIndex y _ x r p (h.subset hp)

theorem drawRows_positions (R : RandSource) (textureIndex : Int → List Rect)
    (debug : Pos → Bool) (offsetX offsetY : Int) (m : List (List Tile)) (y : Nat)
    (r : R.State) :
    ∀ p ∈ (drawRows R textureIndex debug offsetX offsetY m y r).picks, y ≤ p.y := by
  intro p hp
  have h := (drawRows_picks R textureIndex debug offsetX offsetY m y r).1
  exact pickRows_positions R textureIndex _ y r p (h.subset hp)

/-- The calls of one row of the tile loop that does not panic are the calls expected
for its cells, in order. -/
theorem drawRow_calls (R : RandSource) (textureIndex : Int → List Rect)
    (debug : Pos → Bool) (offsetX offsetY : Int) (y : Nat) :
    ∀ (row : List Tile) (x : Nat) (r : R.State),
      (drawRow R textureIndex debug offsetX offsetY y row x r).panic = none →
      (drawRow R textureIndex debug offsetX offsetY y row x r).calls =
        (rowCells y row x).flatMap (cellCalls textureIndex debug offsetX offsetY
          (drawRow R textureIndex debug offsetX offsetY y row x r).picks) := by
  intro row
  induction row with
  | nil => intro x r _; rfl
  | cons tile rest ih =>
    intro x r hp
    cases hc : (drawCell R textureIndex debug offsetX offsetY x y tile r).panic with
    | some p =>
      rw [drawRow_cons_panic R textureIndex debug offsetX offsetY y tile rest x r p hc] at hp
      simp at hp
    | none =>
      rw [drawRow_cons_ok R textureIndex debug offsetX offsetY y tile rest x r hc] at hp ⊢
      simp only [] at hp ⊢
      have hrest := drawRow_positions R textureIndex debug offsetX offsetY y rest (x + 1)
        (drawCell R textureIndex debug offsetX offsetY x y tile r).r
      have hhead : variantAt
          (pickedAt x y (drawCell R textureIndex debug offsetX offsetY x y tile r).pick ++
            (drawRow R textureIndex debug offsetX offsetY y rest (x + 1)
              (drawCell R textureIndex debug offsetX offsetY x y tile r).r).picks) x y =
          (drawCell R textureIndex debug offsetX offsetY x y tile r).pick := by
        apply variantAt_pickedAt_append
        intro p hpm
        have := hrest p hpm
        omega
      rw [rowCells, List.flatMap_cons,
        ← drawCell_calls R textureIndex debug offsetX offsetY x y tile r _ hc hhead,
        ih _ _ hp]
      congr 1
      apply flatMap_congr_mem
      intro c hcm
      apply cellCalls_congr
      have hpos := mem_rowCells y rest (x + 1) c hcm
      symm
      apply variantAt_append_none
      intro p hpm
      have := mem_pickedAt x y _ p hpm
      omega

/-- The calls of a tile loop that does not panic are the calls expected for the cells of
the map, in row-major order. -/
theorem drawRows_calls (R : RandSource) (textureIndex : Int → List Rect)
    (debug : Pos → Bool) (offsetX offsetY : Int) :
    ∀ (m : List (List Tile)) (y : Nat) (r : R.State),
      (drawRows R textureIndex debug offsetX offsetY m y r).panic = none →
      (drawRows R textureIndex debug offsetX offsetY m y r).calls =
        (mapCells m y).flatMap (cellCalls textureIndex debug offsetX offsetY
          (drawRows R textureIndex debug offsetX offsetY m y r).picks) := by
  intro m
  induction m with
  | nil => intro y r _; rfl
  | cons row rest ih =>
    intro y r hp
    cases hc : (drawRow R textureIndex debug offsetX offsetY y row 0 r).panic with
    | some p =>
      rw [drawRows_cons_panic R textureIndex debug offsetX offsetY row rest y r p hc] at hp
      simp at hp
    | none =>
      rw [drawRows_cons_ok R textureIndex debug offsetX offsetY row rest y r hc] at hp ⊢
      simp only [] at hp ⊢
      have hrow := drawRow_positions R textureIndex debug offsetX offsetY y row 0 r
      have hrest := drawRows_positions R textureIndex debug offsetX offsetY rest (y + 1)
        (drawRow R textureIndex debug offsetX offsetY y row 0 r).r
      rw [mapCells, List.flatMap_append,
        drawRow_calls R textureIndex debug offsetX offsetY y row 0 r hc, ih _ _ hp]
      congr 1
      · apply flatMap_congr_mem
        intro c hcm
        apply cellCalls_congr
        have hpos := mem_rowCells y row 0 c hcm
        symm
        apply variantAt_append_right
        intro p hpm
        have := hrest p hpm
        omega
      · apply flatMap_congr_mem
        intro c hcm
        apply cellCalls_congr
        have hpos := mem_mapCells rest (y + 1) c hcm
        symm
        apply variantAt_append_none
        intro p hpm
        have := hrow p hpm
        omega

/-- In a tile loop that does not panic every non-blank cell has a pick, and the pick is
the index of a variant of the cell's glyph. -/
theorem drawRows_cover (R : RandSource) (textureIndex : Int → List Rect)
    (debug : Pos → Bool) (offsetX offsetY : Int) (m : List (List Tile)) (r : R.State)
    (hp : (drawRows R textureIndex debug offsetX offsetY m 0 r).panic = none) :
    ∀ (x y : Nat) (g : Int), glyphAt (glyphs m) y x = some g → g ≠ Blank →
      ∃ k srcRect,
        variantAt (drawRows R textureIndex debug offsetX offsetY m 0 r).picks x y = some k ∧
        (textureIndex g)[k]? = some srcRect := by
  intro x y g hg hne
  obtain ⟨e1, _, e3⟩ := (drawRows_picks R textureIndex debug offsetX offsetY m 0 r).2 hp
  obtain ⟨k, hk, hlt⟩ := pickRows_cover R textureIndex (glyphs m) 0 r e3 y x g hg hne
  rw [Nat.zero_add] at hk
  exact ⟨k, (textureIndex g).get ⟨k, hlt⟩, by rw [e1]; exact hk, List.getElem?_eq_getElem hlt⟩

theorem mem_rowCells_tile (y : Nat) : ∀ (row : List Tile) (x0 : Nat) (c : Nat × Nat × Tile),
    c ∈ rowCells y row x0 → row[c.1 - x0]? = some c.2.2 := by
  intro row
  induction row with
  | nil => intro x0 c hc; simp [rowCells] at hc
  | cons tile rest ih =>
    intro x0 c hc
    simp only [rowCells, List.mem_cons] at hc
    rcases hc with h | h
    · subst h
      simp
    · have hpos := mem_rowCells y rest (x0 + 1) c h
      have := ih (x0 + 1) c h
      have e : c.1 - x0 = (c.1 - (x0 + 1)) + 1 := by omega
      rw [e, List.getElem?_cons_succ]
      exact this

theorem mem_mapCells_glyph : ∀ (m : List (List Tile)) (y0 : Nat) (c : Nat × Nat × Tile),
    c ∈ mapCells m y0 → glyphAt (glyphs m) (c.2.1 - y0) c.1 = some c.2.2.Rune := by
  intro m
  induction m with
  | nil => intro y0 c hc; simp [mapCells] at hc
  | cons row rest ih =>
    intro y0 c hc
    simp only [mapCells, List.mem_append] at hc
    rcases hc with h | h
    · have hpos := mem_rowCells y0 row 0 c h
      have ht := mem_rowCells_tile y0 row 0 c h
      rw [Nat.sub_zero] at ht
      have e : c.2.1 - y0 = 0 := by omega
      rw [e]
      simp [glyphAt, glyphs, ht]
    · have hpos := mem_mapCells rest (y0 + 1) c h
      have := ih (y0 + 1) c h
      have e : c.2.1 - y0 = (c.2.1 - (y0 + 1)) + 1 := by omega
      rw [e]
      simpa [glyphAt, glyphs] using this

end World

namespace World

/-! ### Draw: what the tile loop draws -/

/-- The body of the tile loop draws by priority, and the colour modulations of a tile
loop that does not panic are those of its drawn cells. -/
theorem tileLoop_cells_and_colours (R : RandSource) (textureIndex : Int → List Rect)
    (debug : Pos → Bool) (offsetX offsetY : Int) :
    (∀ (x y : Nat) (tile : Tile) (r : R.State),
      (tile.Rune = Blank →
        (drawCell R textureIndex debug offsetX offsetY x y tile r).calls = []) ∧
      (tile.Visible = false → tile.Seen = false →
        (drawCell R textureIndex debug offsetX offsetY x y tile r).calls = []) ∧
      (tile.Rune ≠ Blank → (tile.Visible = true ∨ tile.Seen = true) →
        (textureIndex tile.Rune).length ≠ 0 →
        ∃ (colour : RenderCall) (srcRect : Rect) (overlay : List RenderCall),
          (drawCell R textureIndex debug offsetX offsetY x y tile r).calls =
            colour :: .copy srcRect (dstRectAt offsetX offsetY x y) :: overlay ∧
          (textureIndex tile.Rune)[(R.Intn r (textureIndex tile.Rune).length).1]? =
            some srcRect ∧
          (overlay = [] ∨
            ∃ overlayRect, overlay = [.copy overlayRect (dstRectAt offsetX offsetY x y)]) ∧
          (debug ⟨x, y⟩ = true → colour = .setColorMod 128 0 0) ∧
          (debug ⟨x, y⟩ = false → tile.Seen = true → tile.Visible = false →
            colour = .setColorMod 128 128 128) ∧
          (debug ⟨x, y⟩ = false → (tile.Seen = false ∨ tile.Visible = true) →
            colour = .setColorMod 255 255 255))) ∧
    (∀ (m : List (List Tile)) (r : R.State),
      (drawRows R textureIndex debug offsetX offsetY m 0 r).panic = none →
      (drawRows R textureIndex debug offsetX offsetY m 0 r).calls.filter isColorMod =
        (mapCells m 0).filterMap (fun c =>
          if c.2.2.Rune ≠ Blank ∧ (c.2.2.Visible = true ∨ c.2.2.Seen = true) then
            some (if debug ⟨c.1, c.2.1⟩ = true then RenderCall.setColorMod 128 0 0
              else if c.2.2.Seen = true ∧ c.2.2.Visible = false then
                RenderCall.setColorMod 128 128 128
              else RenderCall.setColorMod 255 255 255)
          else none)) := by
  have hcol : ∀ (d : Bool) (tile : Tile), colorMod d tile =
      (if d = true then RenderCall.setColorMod 128 0 0
        else if tile.Seen = true ∧ tile.Visible = false then RenderCall.setColorMod 128 128 128
        else RenderCall.setColorMod 255 255 255) := by
    intro d tile
    unfold colorMod
    cases d <;> cases tile.Seen <;> cases tile.Visible <;> rfl
  constructor
  · intro x y tile r
    refine ⟨?_, ?_, ?_⟩
    · intro hb
      rw [drawCell_blank R textureIndex debug offsetX offsetY x y tile r hb]
    · intro hv hs
      by_cases hb : tile.Rune = Blank
      · rw [drawCell_blank R textureIndex debug offsetX offsetY x y tile r hb]
      · by_cases h0 : (textureIndex tile.Rune).length = 0
        · rw [drawCell_noVariants R textureIndex debug offsetX offsetY x y tile r hb h0]
        · rw [drawCell_hidden R textureIndex debug offsetX offsetY x y tile r hb h0
            (by rw [hv, hs]; rfl)]
    · intro hb hvs h0
      obtain ⟨srcRect, hs⟩ := exists_srcRect R textureIndex tile.Rune r h0
      have hv : (tile.Visible || tile.Seen) = true := by
        rw [Bool.or_eq_true]
        exact hvs
      have hc1 : debug ⟨x, y⟩ = true → colorMod (debug ⟨x, y⟩) tile = .setColorMod 128 0 0 := by
        intro h
        rw [hcol, if_pos h]
      have hc2 : debug ⟨x, y⟩ = false → tile.Seen = true → tile.Visible = false →
          colorMod (debug ⟨x, y⟩) tile = .setColorMod 128 128 128 := by
        intro h h1 h2
        rw [hcol, h, h1, h2]
        rfl
      have hc3 : debug ⟨x, y⟩ = false → (tile.Seen = false ∨ tile.Visible = true) →
          colorMod (debug ⟨x, y⟩) tile = .setColorMod 255 255 255 := by
        intro h h1
        rw [hcol, h]
        rcases h1 with h1 | h1 <;> rw [h1] <;> cases tile.Seen <;> cases tile.Visible <;> rfl
      by_cases ho : tile.OverlayRune = Blank
      · refine ⟨colorMod (debug ⟨x, y⟩) tile, srcRect, [], ?_, hs, Or.inl rfl, hc1, hc2, hc3⟩
        rw [drawCell_shown R textureIndex debug offsetX offsetY x y tile r srcRect hb h0 hs
          hv ho]
      · cases hov : (textureIndex tile.OverlayRune)[0]? with
        | none =>
          refine ⟨colorMod (debug ⟨x, y⟩) tile, srcRect, [], ?_, hs, Or.inl rfl, hc1, hc2, hc3⟩
          rw [drawCell_overlay_missing R textureIndex debug offsetX offsetY x y tile r srcRect
            hb h0 hs hv ho hov]
        | some o =>
          refine ⟨colorMod (debug ⟨x, y⟩) tile, srcRect,
            [.copy o (dstRectAt offsetX offsetY x y)], ?_, hs, Or.inr ⟨o, rfl⟩, hc1, hc2, hc3⟩
          rw [drawCell_overlay R textureIndex debug offsetX offsetY x y tile r srcRect o
            hb h0 hs hv ho hov]
  · intro m r hp
    rw [drawRows_colorMods R textureIndex debug offsetX offsetY m 0 r hp]
    apply congrArg (fun f => List.filterMap f (mapCells m 0))
    funext c
    rw [hcol]

/-- C9. In the body of the tile loop, for every cell, generator state and debug map:
a Blank cell makes no call; a cell that is neither Visible nor Seen makes no call,
flagged in the debug map or not; a non-blank cell that is Visible or Seen and whose
glyph has variants makes first one colour modulation, then the copy of its variant
to its destination rectangle, then at most the copy of its overlay, and the colour
is (128,0,0) if its position is flagged in the debug map, otherwise (128,128,128)
if it is Seen and not Visible, otherwise (255,255,255). Over a whole tile loop that
does not panic: the colour modulations made are those of the non-blank cells that
are Visible or Seen, in row-major order, one each, chosen by that priority; the
calls made are, cell by cell in row-major order, exactly the calls of `cellCalls`:
nothing for a Blank cell and for a cell neither Visible nor Seen, and for every other
cell its colour modulation, the copy of the variant picked for it, and the copy of its
overlay if it has one; and every non-blank cell has a variant picked, an index into
the variants of its glyph. -/
theorem tileLoop_draws_by_priority (R : RandSource) (textureIndex : Int → List Rect)
    (debug : Pos → Bool) (offsetX offsetY : Int) :
    (∀ (x y : Nat) (tile : Tile) (r : R.State),
      (tile.Rune = Blank →
        (drawCell R textureIndex debug offsetX offsetY x y tile r).calls = []) ∧
      (tile.Visible = false → tile.Seen = false →
        (drawCell R textureIndex debug offsetX offsetY x y tile r).calls = []) ∧
      (tile.Rune ≠ Blank → (tile.Visible = true ∨ tile.Seen = true) →
        (textureIndex tile.Rune).length ≠ 0 →
        ∃ (colour : RenderCall) (srcRect : Rect) (overlay : List RenderCall),
          (drawCell R textureIndex debug offsetX offsetY x y tile r).calls =
            colour :: .copy srcRect (dstRectAt offsetX offsetY x y) :: overlay ∧
          (textureIndex tile.Rune)[(R.Intn r (textureIndex tile.Rune).length).1]? =
            some srcRect ∧
          (overlay = [] ∨
            ∃ overlayRect, overlay = [.copy overlayRect (dstRectAt offsetX offsetY x y)]) ∧
          (debug ⟨x, y⟩ = true → colour = .setColorMod 128 0 0) ∧
          (debug ⟨x, y⟩ = false → tile.Seen = true → tile.Visible = false →
            colour = .setColorMod 128 128 128) ∧
          (debug ⟨x, y⟩ = false → (tile.Seen = false ∨ tile.Visible = true) →
            colour = .setColorMod 255 255 255))) ∧
    (∀ (m : List (List Tile)) (r : R.State),
      (drawRows R textureIndex debug offsetX offsetY m 0 r).panic = none →
      (drawRows R textureIndex debug offsetX offsetY m 0 r).calls.filter isColorMod =
        (mapCells m 0).filterMap (fun c =>
          if c.2.2.Rune ≠ Blank ∧ (c.2.2.Visible = true ∨ c.2.2.Seen = true) then
            some (if debug ⟨c.1, c.2.1⟩ = true then RenderCall.setColorMod 128 0 0
              else if c.2.2.Seen = true ∧ c.2.2.Visible = false then
                RenderCall.setColorMod 128 128 128
              else RenderCall.setColorMod 255 255 255)
          else none)) ∧
    (∀ (m : List (List Tile)) (r : R.State),
      (drawRows R textureIndex debug offsetX offsetY m 0 r).panic = none →
      (drawRows R textureIndex debug offsetX offsetY m 0 r).calls =
        (mapCells m 0).flatMap (cellCalls textureIndex debug offsetX offsetY
          (drawRows R textureIndex debug offsetX offsetY m 0 r).picks) ∧
      ∀ c ∈ mapCells m 0, c.2.2.Rune ≠ Blank →
        ∃ k srcRect,
          variantAt (drawRows R textureIndex debug offsetX offsetY m 0 r).picks c.1 c.2.1 =
            some k ∧
          (textureIndex c.2.2.Rune)[k]? = some srcRect) := by
  refine ⟨(tileLoop_cells_and_colours R textureIndex debug offsetX offsetY).1,
    (tileLoop_cells_and_colours R textureIndex debug offsetX offsetY).2, ?_⟩
  intro m r hp
  refine ⟨drawRows_calls R textureIndex debug offsetX offsetY m 0 r hp, ?_⟩
  intro c hc hne
  have hg := mem_mapCells_glyph m 0 c hc
  rw [Nat.sub_zero] at hg
  exact drawRows_cover R textureIndex debug offsetX offsetY m r hp c.1 c.2.1 c.2.2.Rune hg hne

/-- C9 at rows of five cells with the debug map flagging columns 3 and 4: a Visible
cell, a Blank cell, a cell Seen but not Visible, a Visible cell that is flagged, and
a flagged cell neither Visible nor Seen. The colour modulations are (255,255,255),
(128,128,128) and (128,0,0), and the last cell makes no call. With a door overlay on
the first cell, the calls of the loop are the three colour modulations, each followed
by the copy of the picked variant, the first also by the copy of the overlay. -/
theorem tileLoop_draws_by_priority_witness :
    (drawRows sampleSource sampleIndex (fun p => decide (3 ≤ p.X)) 0 0
        [[⟨46, 0, true, true⟩, ⟨0, 0, true, true⟩, ⟨46, 0, false, true⟩,
          ⟨46, 0, true, true⟩, ⟨46, 0, false, false⟩]] 0 (0 : Nat)).calls.filter isColorMod =
      [.setColorMod 255 255 255, .setColorMod 128 128 128, .setColorMod 128 0 0] ∧
    (drawCell sampleSource sampleIndex (fun p => decide (3 ≤ p.X)) 0 0 4 0
      ⟨46, 0, false, false⟩ (0 : Nat)).calls = [] ∧
    (drawRows sampleSource sampleIndex (fun p => decide (3 ≤ p.X)) 0 0
        [[⟨46, 124, true, true⟩, ⟨0, 0, true, true⟩, ⟨46, 0, false, true⟩,
          ⟨46, 0, true, true⟩, ⟨46, 0, false, false⟩]] 0 (0 : Nat)).calls =
      [.setColorMod 255 255 255, .copy ⟨64, 0, 32, 32⟩ ⟨0, 0, 32, 32⟩,
        .copy ⟨96, 0, 32, 32⟩ ⟨0, 0, 32, 32⟩,
        .setColorMod 128 128 128, .copy ⟨0, 0, 32, 32⟩ ⟨64, 0, 32, 32⟩,
        .setColorMod 128 0 0, .copy ⟨64, 0, 32, 32⟩ ⟨96, 0, 32, 32⟩] :=
  ⟨((tileLoop_draws_by_priority sampleSource sampleIndex (fun p => decide (3 ≤ p.X)) 0 0).2.1
      [[⟨46, 0, true, true⟩, ⟨0, 0, true, true⟩, ⟨46, 0, false, true⟩,
        ⟨46, 0, true, true⟩, ⟨46, 0, false, false⟩]] (0 : Nat) (by decide)).trans (by decide),
    ((tileLoop_draws_by_priority sampleSource sampleIndex (fun p => decide (3 ≤ p.X)) 0 0).1
      4 0 ⟨46, 0, false, false⟩ (0 : Nat)).2.1 rfl rfl,
    (((tileLoop_draws_by_priority sampleSource sampleIndex (fun p => decide (3 ≤ p.X)) 0 0).2.2
      [[⟨46, 124, true, true⟩, ⟨0, 0, true, true⟩, ⟨46, 0, false, true⟩,
        ⟨46, 0, true, true⟩, ⟨46, 0, false, false⟩]] (0 : Nat) (by decide)).1).trans
      (by decide)⟩

end World

